import Mathlib

/-!
Verification of the CSV-driven batch photo reorganizer
(`organize.py` / `organize-mac.py` of Organize-by-Team).

The filesystem is modelled relative to the image directory: a path is the
list of path segments below the image directory, so `[]` denotes the image
directory itself (which exists, as a directory, throughout).  The state is
an association list from paths to entry kinds.  `os.path.join(base, s)`
appends one segment, except that joining the empty string yields a path
denoting the same entry as `base` (Python returns `base + "/"`).

Python functions are transcribed one by one: `os.makedirs`, `os.rename`
(POSIX semantics), `shutil.move` (its same-file shortcut, its
move-into-existing-directory branch, and the destination-exists error),
`str.strip`, and the row loop of `organize_photos_by_team`.  Error values
are strings standing for the Python exception raised; the remainder of the
batch is aborted on the first error, as in the source, and the state at
that moment is returned alongside the error.
-/

namespace OrgByTeam

/-- A path below the image directory, as a list of segments. -/
abbrev Path := List String

/-- Kind of a filesystem entry. -/
inductive Kind
  | file
  | dir
deriving DecidableEq

/-- Filesystem state: association list from paths to kinds.
The image directory itself (path `[]`) is implicit and always a directory. -/
abbrev FS := List (Path × Kind)

/-- First-match lookup of a path in the state. -/
def lookupFS : FS → Path → Option Kind
  | [], _ => none
  | (q, k) :: rest, p => if q = p then some k else lookupFS rest p

/-- Kind of the entry at a path; the image directory `[]` is always a dir. -/
def kindOf (fs : FS) (p : Path) : Option Kind :=
  if p = [] then some Kind.dir else lookupFS fs p

/-- `os.path.exists` on a path below the image directory. -/
def pexists (fs : FS) (p : Path) : Bool :=
  (kindOf fs p).isSome

/-- `os.path.isdir`. -/
def isdir (fs : FS) (p : Path) : Bool :=
  decide (kindOf fs p = some Kind.dir)

/-- Remove every entry keyed by `p`. -/
def eraseEntry : FS → Path → FS
  | [], _ => []
  | (q, k) :: rest, p =>
    if q = p then eraseEntry rest p else (q, k) :: eraseEntry rest p

/-- Set the entry at `p` to kind `k` (replacing any previous entry). -/
def setEntry (fs : FS) (p : Path) (k : Kind) : FS :=
  (p, k) :: eraseEntry fs p

/-- Boolean path-prefix test. -/
def isPre : Path → Path → Bool
  | [], _ => true
  | _ :: _, [] => false
  | a :: as, b :: bs => a == b && isPre as bs

/-- Replace the leading `src` of a `src`-prefixed path by `dst`. -/
def rePath (src dst p : Path) : Path :=
  if isPre src p then dst ++ p.drop src.length else p

/-- Relocate the whole subtree rooted at `src` to `dst`
(the effect of a directory rename on the entries). -/
def relocate (fs : FS) (src dst : Path) : FS :=
  fs.map (fun e => (rePath src dst e.1, e.2))

/-- Does a directory have any entry strictly below it? -/
def hasChild (fs : FS) (p : Path) : Bool :=
  fs.any (fun e => isPre p e.1 && !(e.1 == p))

/-- `os.path.join(base, s)`: appends the segment, except that joining `""`
denotes the same entry as `base`. -/
def joinSeg (base : Path) (s : String) : Path :=
  if s = "" then base else base ++ [s]

/-- `shutil`'s basename of a relative path (last segment). -/
def basename (p : Path) : String :=
  p.getLastD ""

/-- `os.mkdir`: create one directory; the parent must be an existing
directory and the path must not exist yet. -/
def mkdir (fs : FS) (p : Path) : FS × Option String :=
  if pexists fs p then (fs, some "FileExistsError")
  else if !(isdir fs p.dropLast) then (fs, some "FileNotFoundError")
  else (setEntry fs p Kind.dir, none)

/-- Helper of `makedirs`: walk the segments below `pre`, creating each
missing intermediate directory, then `mkdir` the final segment. -/
def makedirsAux (fs : FS) (pre : Path) : List String → FS × Option String
  | [] => (fs, none)
  | [s] => mkdir fs (pre ++ [s])
  | s :: rest =>
    if pexists fs (pre ++ [s]) then makedirsAux fs (pre ++ [s]) rest
    else
      match mkdir fs (pre ++ [s]) with
      | (fs', none) => makedirsAux fs' (pre ++ [s]) rest
      | (fs', some e) => (fs', some e)

/-- `os.makedirs`: create the directory and any missing ancestors
(an existing intermediate directory is accepted; the final directory must
not exist yet). -/
def makedirs (fs : FS) (p : Path) : FS × Option String :=
  match p with
  | [] => (fs, some "FileExistsError")
  | _ => makedirsAux fs [] p

/-- `os.rename` with POSIX semantics: an existing destination file is
overwritten by a file, an existing empty destination directory is replaced
by a directory; moving a directory strictly inside itself, onto a file, or
onto a non-empty directory fails, as does a missing destination parent.
`shutil.move`'s copy fallback after a failed rename also fails in each of
these situations (only with a different exception), so one error value per
situation is faithful. -/
def rename (fs : FS) (src dst : Path) : FS × Option String :=
  match kindOf fs src with
  | none => (fs, some "FileNotFoundError")
  | some k =>
    if src = dst then (fs, none)
    else if !(isdir fs dst.dropLast) then (fs, some "NotADirectoryError")
    else
      match k with
      | Kind.file =>
        if isdir fs dst then (fs, some "IsADirectoryError")
        else (setEntry (eraseEntry fs src) dst Kind.file, none)
      | Kind.dir =>
        if isPre src dst then (fs, some "shutil.Error: Cannot move a directory into itself")
        else if kindOf fs dst = some Kind.file then (fs, some "NotADirectoryError")
        else if pexists fs dst then
          if hasChild fs dst then (fs, some "OSError: Directory not empty")
          else (relocate (eraseEntry fs dst) src dst, none)
        else (relocate fs src dst, none)

/-- `shutil.move`: if the destination is an existing directory, move the
source into it (unless source and destination are the same entry), failing
if that inner destination already exists; otherwise rename onto the
destination path. -/
def shutilMove (fs : FS) (src dst : Path) : FS × Option String :=
  if isdir fs dst then
    if src = dst then (fs, none)
    else if pexists fs (dst ++ [basename src]) then
      (fs, some "shutil.Error: Destination path already exists")
    else rename fs src (dst ++ [basename src])
  else rename fs src dst

/-- Is the character stripped by Python `str.strip()`? -/
def isPySpace (c : Char) : Bool :=
  c = ' ' || c = '\t' || c = '\n' || c = '\r' || c = '\x0b' || c = '\x0c'

/-- Python `str.strip()`: remove leading and trailing whitespace. -/
def pyStrip (s : String) : String :=
  ⟨((s.data.dropWhile isPySpace).reverse.dropWhile isPySpace).reverse⟩

/-- Lines 12-14 of `organize.py`: compute the team directory path and
create it only when it does not exist yet. -/
def ensureTeamDir (fs : FS) (team_name : String) : FS × Option String :=
  let team_directory := joinSeg [] team_name
  if pexists fs team_directory then (fs, none)
  else makedirs fs team_directory

/-- Lines 10-18 of `organize.py`: the body of the row loop, for one row,
given the raw team and photo cell values. -/
def processRow (fs : FS) (teamVal photoVal : String) : FS × Option String :=
  let team_name := pyStrip teamVal
  let photo_name := pyStrip photoVal
  match ensureTeamDir fs team_name with
  | (fs₁, some e) => (fs₁, some e)
  | (fs₁, none) =>
    let source_path := joinSeg [] photo_name
    let destination_path := joinSeg (joinSeg [] team_name) photo_name
    if pexists fs₁ source_path then shutilMove fs₁ source_path destination_path
    else (fs₁, none)

/-- One row of the tabular source: the two selected cell values. -/
structure Row where
  team : String
  photo : String
deriving DecidableEq

/-- The row loop of `organize_photos_by_team`, over already-extracted
rows: process rows in order, aborting on the first error with the state
reached at that moment. -/
def runRows (fs : FS) : List Row → FS × Option String
  | [] => (fs, none)
  | r :: rest =>
    match processRow fs r.team r.photo with
    | (fs', none) => runRows fs' rest
    | (fs', some e) => (fs', some e)

/-- The parsed CSV: a header row of column names and the data rows
(`pd.read_csv` output, all cells as strings). -/
structure Table where
  header : List String
  rows : List (List String)

/-- `row[col]` on a pandas row: `KeyError` (`none`) when the column is not
in the header, else the cell at the column's first index. -/
def getCell : List String → List String → String → Option String
  | [], _, _ => none
  | h :: hs, cells, col =>
    if h = col then some (cells.headD "") else getCell hs cells.tail col

/-- The loop of `organize_photos_by_team` (organize.py lines 9-18): per
row, read the team cell then the photo cell (a missing column raises
`KeyError` here, before any filesystem action), then run the row body. -/
def organizeLoop (header : List String) (teamCol photoCol : String)
    (fs : FS) : List (List String) → FS × Option String
  | [] => (fs, none)
  | cells :: rest =>
    match getCell header cells teamCol with
    | none => (fs, some "KeyError")
    | some teamVal =>
      match getCell header cells photoCol with
      | none => (fs, some "KeyError")
      | some photoVal =>
        match processRow fs teamVal photoVal with
        | (fs', none) => organizeLoop header teamCol photoCol fs' rest
        | (fs', some e) => (fs', some e)

/-- `organize_photos_by_team(csv_path, image_directory, team_col,
photo_col)` from `organize.py`, after `pd.read_csv`. -/
def organize_photos_by_team (tbl : Table) (teamCol photoCol : String)
    (fs : FS) : FS × Option String :=
  organizeLoop tbl.header teamCol photoCol fs tbl.rows

/-- The inline loop body of `PhotoOrganizer.run_organizer`
(organize-mac.py lines 80-88), transcribed separately. -/
def macProcessRow (fs : FS) (teamVal photoVal : String) : FS × Option String :=
  let team_name := pyStrip teamVal
  let photo_name := pyStrip photoVal
  let team_directory := joinSeg [] team_name
  match (if pexists fs team_directory then (fs, none) else makedirs fs team_directory) with
  | (fs₁, some e) => (fs₁, some e)
  | (fs₁, none) =>
    let source_path := joinSeg [] photo_name
    let destination_path := joinSeg team_directory photo_name
    if pexists fs₁ source_path then shutilMove fs₁ source_path destination_path
    else (fs₁, none)

/-- The row loop of `PhotoOrganizer.run_organizer`
(organize-mac.py lines 79-88), transcribed separately. -/
def macLoop (header : List String) (teamCol photoCol : String)
    (fs : FS) : List (List String) → FS × Option String
  | [] => (fs, none)
  | cells :: rest =>
    match getCell header cells teamCol with
    | none => (fs, some "KeyError")
    | some teamVal =>
      match getCell header cells photoCol with
      | none => (fs, some "KeyError")
      | some photoVal =>
        match macProcessRow fs teamVal photoVal with
        | (fs', none) => macLoop header teamCol photoCol fs' rest
        | (fs', some e) => (fs', some e)

/-- `PhotoOrganizer.run_organizer` from `organize-mac.py` (lines 72-88),
after reading its four inputs and `pd.read_csv`. -/
def run_organizer (tbl : Table) (teamCol photoCol : String)
    (fs : FS) : FS × Option String :=
  macLoop tbl.header teamCol photoCol fs tbl.rows

/-! ### An order-independent description of an error-free run

For the order-independence analysis, the effect of an error-free run is
described row by row against the initial state: whether a row moves its
source, where its destination lands, and under what condition it runs
without error are all functions of the initial state alone (given the
side conditions of the analysis), so the final state is described by a
lookup function over the initial state and the set of rows. -/

/-- Does the row move its source?  (Team nonempty and source present in
the initial state.) -/
def rowMoved (fs₀ : FS) (r : Row) : Bool :=
  !(pyStrip r.team == "") && (lookupFS fs₀ [pyStrip r.photo]).isSome

/-- Where the row's move lands: the destination path, or the destination
path with the photo segment repeated when the destination is an existing
directory in the initial state. -/
def rowDst (fs₀ : FS) (r : Row) : Path :=
  if lookupFS fs₀ [pyStrip r.team, pyStrip r.photo] = some Kind.dir
  then [pyStrip r.team, pyStrip r.photo, pyStrip r.photo]
  else [pyStrip r.team, pyStrip r.photo]

/-- The condition under which the row is processed without error (for
rows with a nonempty trimmed photo, sources that are not directories,
and team values disjoint from photo values). -/
def rowOkB (fs₀ : FS) (r : Row) : Bool :=
  (pyStrip r.team == "") || (lookupFS fs₀ [pyStrip r.photo] == none) ||
    (if lookupFS fs₀ [pyStrip r.team, pyStrip r.photo] = some Kind.dir
     then lookupFS fs₀ [pyStrip r.team, pyStrip r.photo, pyStrip r.photo]
       == none
     else !(lookupFS fs₀ [pyStrip r.team] == some Kind.file))

/-- The lookup function of the state after the rows in `done` have been
processed from initial state `fs₀`: moved entries sit at their
destinations, moved sources are gone, created team directories are
present, and everything else is as in `fs₀`. -/
def cLook (fs₀ : FS) (done : List Row) (q : Path) : Option Kind :=
  if done.any (fun r => rowMoved fs₀ r && q == rowDst fs₀ r) then
    some Kind.file
  else if done.any (fun r => rowMoved fs₀ r && q == [pyStrip r.photo]) then
    none
  else if done.any (fun r => !(pyStrip r.team == "") &&
      q == [pyStrip r.team]) && (lookupFS fs₀ q == none) then
    some Kind.dir
  else lookupFS fs₀ q

/-- The state after the team-directory phase of a row whose trimmed team
`T` is nonempty: unchanged if the team path exists, else with the
directory created. -/
def ensFS (fs : FS) (T : String) : FS :=
  if pexists fs [T] = true then fs else setEntry fs [T] Kind.dir

/-! ### Basic lemmas about the state primitives -/

theorem isPre_nil (q : Path) : isPre [] q = true := by
  cases q <;> rfl

theorem isPre_refl (p : Path) : isPre p p = true := by
  induction p with
  | nil => rfl
  | cons a as ih => simp [isPre, ih]

theorem isPre_append_self (d x : Path) : isPre d (d ++ x) = true := by
  induction d with
  | nil => simp [isPre_nil]
  | cons a as ih => simp [isPre, ih]

theorem isPre_iff (a b : Path) : isPre a b = true ↔ ∃ t, b = a ++ t := by
  constructor
  · intro h
    induction a generalizing b with
    | nil => exact ⟨b, rfl⟩
    | cons x xs ih =>
      cases b with
      | nil => simp [isPre] at h
      | cons y ys =>
        simp only [isPre, Bool.and_eq_true, beq_iff_eq] at h
        obtain ⟨t, ht⟩ := ih ys h.2
        exact ⟨t, by simp [h.1, ht]⟩
  · rintro ⟨t, rfl⟩
    exact isPre_append_self a t

theorem isPre_one_cons (a b : String) (bs : Path) :
    isPre [a] (b :: bs) = (a == b) := by
  simp [isPre, isPre_nil]

theorem isPre_one_of_ne {a b : String} (h : a ≠ b) (bs : Path) :
    isPre [a] (b :: bs) = false := by
  simp [isPre_one_cons, h]

theorem isPre_two_one (a b c : String) : isPre [a, b] [c] = false := by
  simp [isPre]

theorem isPre_false_of_isPre_append {a q : Path} (h : isPre a q = false)
    (b : Path) : isPre (a ++ b) q = false := by
  by_contra hc
  rw [Bool.not_eq_false] at hc
  obtain ⟨t, rfl⟩ := (isPre_iff _ _).1 hc
  rw [List.append_assoc] at h
  rw [isPre_append_self] at h
  cases h

theorem ne_of_lookupFS_none {fs : FS} {q : Path} (h : lookupFS fs q = none) :
    ∀ e ∈ fs, e.1 ≠ q := by
  induction fs with
  | nil => intro e he; cases he
  | cons f rest ih =>
    intro e he
    obtain ⟨kf, vf⟩ := f
    by_cases hk : kf = q
    · rw [lookupFS, if_pos hk] at h
      cases h
    · rw [lookupFS, if_neg hk] at h
      cases he with
      | head => exact hk
      | tail _ hm => exact ih h e hm

theorem lookupFS_relocate_frame (fs : FS) (src dst q : Path)
    (h1 : isPre src q = false) (h2 : isPre dst q = false) :
    lookupFS (relocate fs src dst) q = lookupFS fs q := by
  induction fs with
  | nil => rfl
  | cons e rest ih =>
    obtain ⟨ke, ve⟩ := e
    have ihr : lookupFS (List.map (fun e => (rePath src dst e.1, e.2)) rest) q
        = lookupFS rest q := by
      simpa [relocate] using ih
    simp only [relocate, List.map_cons, lookupFS]
    by_cases hs : isPre src ke = true
    · have hne : rePath src dst ke ≠ q := by
        intro hq
        rw [rePath, if_pos hs] at hq
        rw [← hq, isPre_append_self] at h2
        cases h2
      have hkq : ke ≠ q := by
        intro hq
        rw [hq, h1] at hs
        cases hs
      rw [if_neg hne, if_neg hkq]
      exact ihr
    · rw [Bool.not_eq_true] at hs
      have hre : rePath src dst ke = ke := by rw [rePath, hs]; simp
      rw [hre]
      by_cases hk : ke = q
      · rw [if_pos hk, if_pos hk]
      · rw [if_neg hk, if_neg hk]
        exact ihr

theorem lookupFS_relocate_src (fs : FS) (src dst q : Path)
    (h1 : isPre src q = true) (h2 : isPre dst q = false) :
    lookupFS (relocate fs src dst) q = none := by
  induction fs with
  | nil => rfl
  | cons e rest ih =>
    obtain ⟨ke, ve⟩ := e
    simp only [relocate, List.map_cons, lookupFS] at ih ⊢
    by_cases hs : isPre src ke = true
    · have hne : rePath src dst ke ≠ q := by
        intro hq
        rw [rePath, if_pos hs] at hq
        rw [← hq, isPre_append_self] at h2
        cases h2
      rw [if_neg hne]
      exact ih
    · rw [Bool.not_eq_true] at hs
      have hre : rePath src dst ke = ke := by rw [rePath, hs]; simp
      have hkq : ke ≠ q := by
        intro hq
        rw [hq, h1] at hs
        cases hs
      rw [hre, if_neg hkq]
      exact ih

theorem pexists_relocate_keep (fs : FS) (src dst q : Path)
    (h1 : isPre src q = false) (h2 : (lookupFS fs q).isSome = true) :
    (lookupFS (relocate fs src dst) q).isSome = true := by
  induction fs with
  | nil => simp [lookupFS] at h2
  | cons e rest ih =>
    obtain ⟨ke, ve⟩ := e
    simp only [relocate, List.map_cons, lookupFS] at ih ⊢
    by_cases hk : ke = q
    · subst hk
      have hre : rePath src dst ke = ke := by rw [rePath, h1]; simp
      rw [hre, if_pos rfl]
      rfl
    · rw [lookupFS, if_neg hk] at h2
      by_cases hd : rePath src dst ke = q
      · rw [if_pos hd]
        rfl
      · rw [if_neg hd]
        exact ih h2

theorem lookupFS_eraseEntry (fs : FS) (p q : Path) :
    lookupFS (eraseEntry fs p) q = if q = p then none else lookupFS fs q := by
  induction fs with
  | nil => simp [eraseEntry, lookupFS]
  | cons e rest ih =>
    obtain ⟨qe, ke⟩ := e
    by_cases hqe : qe = p
    · subst hqe
      by_cases hq : q = qe
      · subst hq
        simp [eraseEntry, lookupFS, ih]
      · simp [eraseEntry, lookupFS, ih, hq, Ne.symm hq]
    · by_cases hq : qe = q
      · subst hq
        have hqp : ¬(qe = p) := hqe
        simp [eraseEntry, lookupFS, hqe, ih, hqp]
      · simp [eraseEntry, lookupFS, hqe, hq, ih]

theorem lookupFS_setEntry (fs : FS) (p q : Path) (k : Kind) :
    lookupFS (setEntry fs p k) q = if q = p then some k else lookupFS fs q := by
  by_cases hq : q = p
  · subst hq
    simp [setEntry, lookupFS]
  · simp [setEntry, lookupFS, hq, Ne.symm hq, lookupFS_eraseEntry]

theorem pexists_setEntry_self (fs : FS) (p : Path) (k : Kind) :
    pexists (setEntry fs p k) p = true := by
  by_cases hp : p = []
  · simp [hp, pexists, kindOf]
  · simp [pexists, kindOf, hp, lookupFS_setEntry]

theorem kindOf_root (fs : FS) : kindOf fs [] = some Kind.dir := by
  simp [kindOf]

theorem pexists_root (fs : FS) : pexists fs [] = true := by
  simp [pexists, kindOf]

theorem kindOf_ne_root (fs : FS) (p : Path) (h : p ≠ []) :
    kindOf fs p = lookupFS fs p := by
  simp [kindOf, h]

theorem isdir_root (fs : FS) : isdir fs [] = true := by
  simp [isdir, kindOf]

theorem makedirs_single (fs : FS) (t : String) (h : pexists fs [t] = false) :
    makedirs fs [t] = (setEntry fs [t] Kind.dir, none) := by
  simp [makedirs, makedirsAux, mkdir, h, isdir_root]

theorem isPre_false_of_length_lt {a q : Path} (h : q.length < a.length) :
    isPre a q = false := by
  by_contra hc
  rw [Bool.not_eq_false] at hc
  obtain ⟨tl, rfl⟩ := (isPre_iff _ _).1 hc
  rw [List.length_append] at h
  omega

theorem joinSeg_empty (b : Path) : joinSeg b "" = b := by
  simp [joinSeg]

theorem joinSeg_ne (b : Path) {s : String} (h : s ≠ "") :
    joinSeg b s = b ++ [s] := by
  simp [joinSeg, h]

theorem basename_single (s : String) : basename [s] = s := rfl

theorem lookupFS_of_pexists_false {fs : FS} {q : Path} (hq : q ≠ [])
    (h : pexists fs q = false) : lookupFS fs q = none := by
  rw [pexists, kindOf, if_neg hq] at h
  cases hl : lookupFS fs q with
  | none => rfl
  | some k => rw [hl] at h; cases h

theorem lookupFS_ensFS_ne (fs : FS) (T : String) (q : Path) (h : q ≠ [T]) :
    lookupFS (ensFS fs T) q = lookupFS fs q := by
  rw [ensFS]
  split
  · rfl
  · rw [lookupFS_setEntry, if_neg h]

theorem pexists_ensFS_self (fs : FS) (T : String) :
    pexists (ensFS fs T) [T] = true := by
  rw [ensFS]
  split
  · assumption
  · exact pexists_setEntry_self fs [T] Kind.dir

theorem pexists_ensFS_ne (fs : FS) (T : String) (q : Path) (h : q ≠ [T]) :
    pexists (ensFS fs T) q = pexists fs q := by
  by_cases hq : q = []
  · subst hq
    rw [pexists_root, pexists_root]
  · rw [pexists, pexists, kindOf, kindOf, if_neg hq, if_neg hq,
      lookupFS_ensFS_ne fs T q h]

theorem ensureTeamDir_empty (fs : FS) : ensureTeamDir fs "" = (fs, none) := by
  simp [ensureTeamDir, joinSeg, pexists_root]

theorem ensureTeamDir_spec (fs : FS) {tm : String} (h : tm ≠ "") :
    ensureTeamDir fs tm = (ensFS fs tm, none) := by
  rw [ensureTeamDir, joinSeg_ne _ h, ensFS]
  simp only [List.nil_append]
  split
  · rfl
  · rename_i hp
    rw [makedirs_single fs tm (by simpa using hp)]

theorem rename_file (fs : FS) (src dst : Path)
    (hk : kindOf fs src = some Kind.file) :
    rename fs src dst =
      if src = dst then (fs, none)
      else if !(isdir fs dst.dropLast) then (fs, some "NotADirectoryError")
      else if isdir fs dst then (fs, some "IsADirectoryError")
      else (setEntry (eraseEntry fs src) dst Kind.file, none) := by
  rw [rename, hk]

theorem rename_dir (fs : FS) (src dst : Path)
    (hk : kindOf fs src = some Kind.dir) :
    rename fs src dst =
      if src = dst then (fs, none)
      else if !(isdir fs dst.dropLast) then (fs, some "NotADirectoryError")
      else if isPre src dst then
        (fs, some "shutil.Error: Cannot move a directory into itself")
      else if kindOf fs dst = some Kind.file then (fs, some "NotADirectoryError")
      else if pexists fs dst then
        if hasChild fs dst then (fs, some "OSError: Directory not empty")
        else (relocate (eraseEntry fs dst) src dst, none)
      else (relocate fs src dst, none) := by
  rw [rename, hk]

theorem shutilMove_self (fs : FS) (s : Path) (h : pexists fs s = true) :
    shutilMove fs s s = (fs, none) := by
  rw [pexists] at h
  cases hk : kindOf fs s with
  | none => rw [hk] at h; cases h
  | some k =>
    rw [shutilMove]
    split
    · rw [if_pos rfl]
    · cases k with
      | file => rw [rename_file fs s s hk, if_pos rfl]
      | dir => rw [rename_dir fs s s hk, if_pos rfl]

theorem shutilMove_root_errors (fs : FS) (dst : Path) (h : dst ≠ []) :
    (shutilMove fs [] dst).1 = fs ∧ (shutilMove fs [] dst).2 ≠ none := by
  have hkroot : kindOf fs [] = some Kind.dir := kindOf_root fs
  rw [shutilMove]
  split
  · rw [if_neg (Ne.symm h)]
    split
    · exact ⟨rfl, by simp⟩
    · have hne : ([] : Path) ≠ dst ++ [basename []] := by
        intro hc
        exact (List.append_ne_nil_of_right_ne_nil dst (by simp)) hc.symm
      rw [rename_dir fs [] _ hkroot, if_neg hne]
      split
      · exact ⟨rfl, by simp⟩
      · rw [if_pos (isPre_nil _)]
        exact ⟨rfl, by simp⟩
  · rw [rename_dir fs [] dst hkroot, if_neg (Ne.symm h)]
    split
    · exact ⟨rfl, by simp⟩
    · rw [if_pos (isPre_nil _)]
      exact ⟨rfl, by simp⟩

theorem processRow_team_empty (fs : FS) (t p : String)
    (h : pyStrip t = "") : processRow fs t p = (fs, none) := by
  rw [processRow]
  simp only [h, ensureTeamDir_empty, joinSeg_empty]
  split
  · exact shutilMove_self fs _ (by assumption)
  · rfl

/-- The possible error-free outcomes of one row step: an empty team does
nothing; otherwise the photo is nonempty and either the source is absent
(only the team directory is ensured), or a file is moved onto `D`, or a
directory subtree is relocated onto `D`, where `D` is the destination
path, or the destination path with the photo segment repeated when the
destination was an existing directory. -/
theorem processRow_shape (fs : FS) (t p : String)
    (hok : (processRow fs t p).2 = none) :
    (pyStrip t = "" ∧ processRow fs t p = (fs, none)) ∨
    (pyStrip t ≠ "" ∧ pyStrip p ≠ "" ∧
      ((lookupFS fs [pyStrip p] = none ∧
          processRow fs t p = (ensFS fs (pyStrip t), none)) ∨
        (∃ D,
          ((D = [pyStrip t, pyStrip p] ∧
              isdir (ensFS fs (pyStrip t)) [pyStrip t, pyStrip p] = false) ∨
            (D = [pyStrip t, pyStrip p, pyStrip p] ∧
              isdir (ensFS fs (pyStrip t)) [pyStrip t, pyStrip p] = true ∧
              pexists (ensFS fs (pyStrip t))
                [pyStrip t, pyStrip p, pyStrip p] = false)) ∧
          ((kindOf (ensFS fs (pyStrip t)) [pyStrip p] = some Kind.file ∧
              processRow fs t p =
                (setEntry (eraseEntry (ensFS fs (pyStrip t)) [pyStrip p]) D
                  Kind.file, none)) ∨
            (kindOf (ensFS fs (pyStrip t)) [pyStrip p] = some Kind.dir ∧
              isPre [pyStrip p] D = false ∧
              processRow fs t p =
                (relocate (ensFS fs (pyStrip t)) [pyStrip p] D, none)))))) := by
  by_cases hT : pyStrip t = ""
  · exact Or.inl ⟨hT, processRow_team_empty fs t p hT⟩
  · refine Or.inr ⟨hT, ?_⟩
    have hbody : processRow fs t p =
        (if pexists (ensFS fs (pyStrip t)) (joinSeg [] (pyStrip p)) = true then
          shutilMove (ensFS fs (pyStrip t)) (joinSeg [] (pyStrip p))
            (joinSeg [pyStrip t] (pyStrip p))
        else (ensFS fs (pyStrip t), none)) := by
      rw [processRow, ensureTeamDir_spec fs hT, joinSeg_ne _ hT]
      simp only [List.nil_append]
    by_cases hP : pyStrip p = ""
    · exfalso
      rw [hbody, hP, joinSeg_empty, joinSeg_empty, if_pos (pexists_root _)] at hok
      exact (shutilMove_root_errors (ensFS fs (pyStrip t)) [pyStrip t]
        (by simp)).2 hok
    · refine ⟨hP, ?_⟩
      rw [joinSeg_ne _ hP, joinSeg_ne _ hP] at hbody
      simp only [List.nil_append, List.singleton_append] at hbody
      set fs₁ := ensFS fs (pyStrip t) with hfs₁
      set T := pyStrip t
      set P := pyStrip p
      by_cases hsrc : pexists fs₁ [P] = true
      · -- move branch
        rw [hbody, if_pos hsrc] at hok ⊢
        right
        have hkS : ∃ k, kindOf fs₁ [P] = some k := by
          rw [pexists] at hsrc
          cases hk : kindOf fs₁ [P] with
          | none => rw [hk] at hsrc; cases hsrc
          | some k => exact ⟨k, rfl⟩
        obtain ⟨k, hk⟩ := hkS
        have hsd : ([P] : Path) ≠ [T, P] := by simp
        rw [shutilMove] at hok ⊢
        by_cases hdd : isdir fs₁ [T, P] = true
        · rw [if_pos hdd, if_neg hsd] at hok ⊢
          have hreal : ([T, P] : Path) ++ [basename [P]] = [T, P, P] := by
            rw [basename_single]
            rfl
          rw [hreal] at hok ⊢
          by_cases hre : pexists fs₁ [T, P, P] = true
          · exfalso
            rw [if_pos hre] at hok
            exact Option.some_ne_none _ hok
          · rw [if_neg hre] at hok ⊢
            have hsd3 : ([P] : Path) ≠ [T, P, P] := by simp
            have hdl3 : ([T, P, P] : Path).dropLast = [T, P] := rfl
            have hpar : (!(isdir fs₁ ([T, P, P] : Path).dropLast)) ≠ true := by
              rw [hdl3, hdd]
              simp
            refine ⟨[T, P, P], Or.inr ⟨rfl, hdd,
              by rw [Bool.not_eq_true] at hre; exact hre⟩, ?_⟩
            cases k with
            | file =>
              rw [rename_file fs₁ [P] [T, P, P] hk, if_neg hsd3,
                if_neg hpar] at hok ⊢
              have hnd : isdir fs₁ [T, P, P] ≠ true := by
                rw [isdir]
                rw [pexists] at hre
                cases hko : kindOf fs₁ [T, P, P] with
                | none => simp
                | some kk => rw [hko] at hre; simp at hre
              rw [if_neg hnd]
              exact Or.inl ⟨hk, rfl⟩
            | dir =>
              rw [rename_dir fs₁ [P] [T, P, P] hk, if_neg hsd3,
                if_neg hpar] at hok ⊢
              by_cases hself : isPre [P] ([T, P, P] : Path) = true
              · exfalso
                rw [if_pos hself] at hok
                exact Option.some_ne_none _ hok
              · rw [if_neg hself] at hok ⊢
                have hknone : kindOf fs₁ [T, P, P] = none := by
                  rw [pexists] at hre
                  cases hko : kindOf fs₁ [T, P, P] with
                  | none => rfl
                  | some kk => rw [hko] at hre; simp at hre
                rw [hknone] at hok ⊢
                rw [if_neg (by simp)] at hok ⊢
                rw [if_neg (by rw [pexists, hknone]; simp)] at hok ⊢
                exact Or.inr ⟨hk, Bool.not_eq_true _ ▸ hself, rfl⟩
        · rw [if_neg hdd] at hok ⊢
          by_cases hpar : isdir fs₁ ([T, P] : Path).dropLast = true
          · have hpar' : (!(isdir fs₁ ([T, P] : Path).dropLast)) ≠ true := by
              rw [hpar]
              simp
            refine ⟨[T, P], Or.inl ⟨rfl, by
              rw [Bool.not_eq_true] at hdd; exact hdd⟩, ?_⟩
            cases k with
            | file =>
              rw [rename_file fs₁ [P] [T, P] hk, if_neg hsd, if_neg hpar',
                if_neg hdd]
              exact Or.inl ⟨hk, rfl⟩
            | dir =>
              rw [rename_dir fs₁ [P] [T, P] hk, if_neg hsd, if_neg hpar']
                at hok ⊢
              by_cases hself : isPre [P] ([T, P] : Path) = true
              · exfalso
                rw [if_pos hself] at hok
                exact Option.some_ne_none _ hok
              · rw [if_neg hself] at hok ⊢
                by_cases hfile : kindOf fs₁ [T, P] = some Kind.file
                · exfalso
                  rw [if_pos hfile] at hok
                  exact Option.some_ne_none _ hok
                · rw [if_neg hfile] at hok ⊢
                  have hpe : pexists fs₁ [T, P] ≠ true := by
                    rw [pexists]
                    cases hko : kindOf fs₁ [T, P] with
                    | none => simp
                    | some kk =>
                      cases kk with
                      | file => exact absurd hko hfile
                      | dir =>
                        rw [isdir, hko] at hdd
                        simp at hdd
                  rw [if_neg hpe] at hok ⊢
                  exact Or.inr ⟨hk, Bool.not_eq_true _ ▸ hself, rfl⟩
          · exfalso
            have hpar' : (!(isdir fs₁ ([T, P] : Path).dropLast)) = true := by
              rw [Bool.not_eq_true] at hpar
              rw [hpar]
              rfl
            cases k with
            | file =>
              rw [rename_file fs₁ [P] [T, P] hk, if_neg hsd, if_pos hpar']
                at hok
              exact Option.some_ne_none _ hok
            | dir =>
              rw [rename_dir fs₁ [P] [T, P] hk, if_neg hsd, if_pos hpar']
                at hok
              exact Option.some_ne_none _ hok
      · -- skip branch
        left
        rw [hbody, if_neg hsrc]
        refine ⟨?_, rfl⟩
        rw [Bool.not_eq_true] at hsrc
        have h₁ : lookupFS fs₁ [P] = none :=
          lookupFS_of_pexists_false (by simp) hsrc
        rw [hfs₁, ensFS] at h₁
        by_cases hpt : pexists fs [T] = true
        · rwa [if_pos hpt] at h₁
        · rw [if_neg hpt, lookupFS_setEntry] at h₁
          by_cases hPT : ([P] : Path) = [T]
          · rw [if_pos hPT] at h₁
            cases h₁
          · rwa [if_neg hPT] at h₁

/-! ### Frame lemmas: what one error-free row step cannot touch -/

theorem processRow_frame (fs : FS) (t p : String) (q : Path)
    (hok : (processRow fs t p).2 = none)
    (h1 : q ≠ [pyStrip t])
    (h2 : isPre [pyStrip p] q = false)
    (h3 : isPre [pyStrip t, pyStrip p] q = false) :
    lookupFS (processRow fs t p).1 q = lookupFS fs q := by
  have hqP : q ≠ [pyStrip p] := by
    intro hq
    rw [hq, isPre_refl] at h2
    cases h2
  rcases processRow_shape fs t p hok with ⟨_, heq⟩ |
    ⟨hT, hP, ⟨_, heq⟩ | ⟨D, hD, ⟨_, heq⟩ | ⟨_, hpre, heq⟩⟩⟩
  · rw [heq]
  · rw [heq]
    exact lookupFS_ensFS_ne fs _ q h1
  · have hqD : q ≠ D := by
      rcases hD with ⟨rfl, _⟩ | ⟨rfl, _⟩
      · intro hq
        rw [hq, isPre_refl] at h3
        cases h3
      · intro hq
        have : isPre [pyStrip t, pyStrip p]
            ([pyStrip t, pyStrip p] ++ [pyStrip p]) = true :=
          isPre_append_self _ _
        rw [hq] at h3
        rw [show ([pyStrip t, pyStrip p, pyStrip p] : Path) =
          [pyStrip t, pyStrip p] ++ [pyStrip p] from rfl, this] at h3
        cases h3
    rw [heq]
    simp only
    rw [lookupFS_setEntry, if_neg hqD, lookupFS_eraseEntry, if_neg hqP]
    exact lookupFS_ensFS_ne fs _ q h1
  · have hDq : isPre D q = false := by
      rcases hD with ⟨rfl, _⟩ | ⟨rfl, _⟩
      · exact h3
      · exact isPre_false_of_isPre_append h3 [pyStrip p]
    rw [heq]
    simp only
    rw [lookupFS_relocate_frame _ _ _ _ h2 hDq]
    exact lookupFS_ensFS_ne fs _ q h1

theorem processRow_pexists_keep (fs : FS) (t p : String) (q : Path)
    (hok : (processRow fs t p).2 = none)
    (h2 : isPre [pyStrip p] q = false)
    (hpe : pexists fs q = true) :
    pexists (processRow fs t p).1 q = true := by
  by_cases hq0 : q = []
  · rw [hq0, pexists_root]
  rcases processRow_shape fs t p hok with ⟨_, heq⟩ |
    ⟨hT, hP, ⟨_, heq⟩ | ⟨D, hD, ⟨_, heq⟩ | ⟨_, hpre, heq⟩⟩⟩
  · rw [heq]
    exact hpe
  · rw [heq]
    by_cases hqT : q = [pyStrip t]
    · rw [hqT]
      exact pexists_ensFS_self fs _
    · rw [pexists_ensFS_ne fs _ q hqT]
      exact hpe
  · rw [heq]
    simp only
    by_cases hqD : q = D
    · rw [hqD]
      exact pexists_setEntry_self _ _ _
    · have hqP : q ≠ [pyStrip p] := by
        intro hq
        rw [hq, isPre_refl] at h2
        cases h2
      rw [pexists, kindOf, if_neg hq0, lookupFS_setEntry, if_neg hqD,
        lookupFS_eraseEntry, if_neg hqP]
      by_cases hqT : q = [pyStrip t]
      · have := pexists_ensFS_self fs (pyStrip t)
        rw [pexists, kindOf, if_neg (by simp)] at this
        rw [hqT]
        exact this
      · rw [lookupFS_ensFS_ne fs _ q hqT]
        rw [pexists, kindOf, if_neg hq0] at hpe
        exact hpe
  · rw [heq]
    simp only
    rw [pexists, kindOf, if_neg hq0]
    apply pexists_relocate_keep _ _ _ _ h2
    by_cases hqT : q = [pyStrip t]
    · have := pexists_ensFS_self fs (pyStrip t)
      rw [pexists, kindOf, if_neg (by simp)] at this
      rw [hqT]
      exact this
    · rw [lookupFS_ensFS_ne fs _ q hqT]
      rw [pexists, kindOf, if_neg hq0] at hpe
      exact hpe

theorem processRow_absent_keep (fs : FS) (t p : String) (q : Path)
    (hok : (processRow fs t p).2 = none)
    (h1 : q ≠ [pyStrip t])
    (h3 : isPre [pyStrip t, pyStrip p] q = false)
    (hpe : pexists fs q = false) :
    pexists (processRow fs t p).1 q = false := by
  have hq0 : q ≠ [] := by
    intro hq
    rw [hq, pexists_root] at hpe
    cases hpe
  rcases processRow_shape fs t p hok with ⟨_, heq⟩ |
    ⟨hT, hP, ⟨_, heq⟩ | ⟨D, hD, ⟨_, heq⟩ | ⟨_, hpre, heq⟩⟩⟩
  · rw [heq]
    exact hpe
  · rw [heq, pexists_ensFS_ne fs _ q h1]
    exact hpe
  · have hqD : q ≠ D := by
      rcases hD with ⟨rfl, _⟩ | ⟨rfl, _⟩
      · intro hq
        rw [hq, isPre_refl] at h3
        cases h3
      · intro hq
        have : isPre [pyStrip t, pyStrip p]
            ([pyStrip t, pyStrip p] ++ [pyStrip p]) = true :=
          isPre_append_self _ _
        rw [hq] at h3
        rw [show ([pyStrip t, pyStrip p, pyStrip p] : Path) =
          [pyStrip t, pyStrip p] ++ [pyStrip p] from rfl, this] at h3
        cases h3
    rw [heq]
    simp only
    rw [pexists, kindOf, if_neg hq0, lookupFS_setEntry, if_neg hqD,
      lookupFS_eraseEntry]
    by_cases hqP : q = [pyStrip p]
    · rw [if_pos hqP]
      rfl
    · rw [if_neg hqP, lookupFS_ensFS_ne fs _ q h1]
      rw [pexists, kindOf, if_neg hq0] at hpe
      exact hpe
  · have hDq : isPre D q = false := by
      rcases hD with ⟨rfl, _⟩ | ⟨rfl, _⟩
      · exact h3
      · exact isPre_false_of_isPre_append h3 [pyStrip p]
    rw [heq]
    simp only
    rw [pexists, kindOf, if_neg hq0]
    by_cases hsq : isPre [pyStrip p] q = true
    · rw [lookupFS_relocate_src _ _ _ _ hsq hDq]
      rfl
    · rw [Bool.not_eq_true] at hsq
      rw [lookupFS_relocate_frame _ _ _ _ hsq hDq,
        lookupFS_ensFS_ne fs _ q h1]
      rw [pexists, kindOf, if_neg hq0] at hpe
      exact hpe

/-- After an error-free row step whose trimmed team differs from its
trimmed photo, the team directory path exists. -/
theorem processRow_team_exists (fs : FS) (t p : String)
    (hok : (processRow fs t p).2 = none)
    (htp : pyStrip t ≠ pyStrip p) :
    pexists (processRow fs t p).1 (joinSeg [] (pyStrip t)) = true := by
  by_cases hT : pyStrip t = ""
  · rw [hT, joinSeg_empty, pexists_root]
  rw [joinSeg_ne _ hT, List.nil_append]
  have hTP : ([pyStrip t] : Path) ≠ [pyStrip p] := by
    simp [htp]
  rcases processRow_shape fs t p hok with ⟨hT', _⟩ |
    ⟨_, hP, ⟨_, heq⟩ | ⟨D, hD, ⟨_, heq⟩ | ⟨_, hpre, heq⟩⟩⟩
  · exact absurd hT' hT
  · rw [heq]
    exact pexists_ensFS_self fs _
  · have hTD : ([pyStrip t] : Path) ≠ D := by
      rcases hD with ⟨rfl, _⟩ | ⟨rfl, _⟩ <;> simp
    rw [heq]
    simp only
    rw [pexists, kindOf, if_neg (by simp), lookupFS_setEntry, if_neg hTD,
      lookupFS_eraseEntry, if_neg hTP]
    have := pexists_ensFS_self fs (pyStrip t)
    rw [pexists, kindOf, if_neg (by simp)] at this
    exact this
  · rw [heq]
    simp only
    rw [pexists, kindOf, if_neg (by simp)]
    apply pexists_relocate_keep
    · exact isPre_one_of_ne (Ne.symm htp) _
    · have := pexists_ensFS_self fs (pyStrip t)
      rw [pexists, kindOf, if_neg (by simp)] at this
      exact this

/-- After an error-free row step with a nonempty trimmed team differing
from the trimmed photo, the source path no longer exists. -/
theorem processRow_src_gone (fs : FS) (t p : String)
    (hok : (processRow fs t p).2 = none)
    (hT : pyStrip t ≠ "")
    (htp : pyStrip t ≠ pyStrip p) :
    pexists (processRow fs t p).1 [pyStrip p] = false := by
  have hPT : ([pyStrip p] : Path) ≠ [pyStrip t] := by
    simp [Ne.symm htp]
  rcases processRow_shape fs t p hok with ⟨hT', _⟩ |
    ⟨_, hP, ⟨hnone, heq⟩ | ⟨D, hD, ⟨_, heq⟩ | ⟨_, hpre, heq⟩⟩⟩
  · exact absurd hT' hT
  · rw [heq, pexists_ensFS_ne fs _ _ hPT, pexists, kindOf,
      if_neg (by simp [hP]), hnone]
    rfl
  · have hPD : ([pyStrip p] : Path) ≠ D := by
      rcases hD with ⟨rfl, _⟩ | ⟨rfl, _⟩ <;> simp
    rw [heq]
    simp only
    rw [pexists, kindOf, if_neg (by simp [hP]), lookupFS_setEntry,
      if_neg hPD, lookupFS_eraseEntry, if_pos rfl]
    rfl
  · have hDP : isPre D [pyStrip p] = false := by
      rcases hD with ⟨rfl, _⟩ | ⟨rfl, _⟩ <;>
        exact isPre_false_of_length_lt (by simp)
    rw [heq]
    simp only
    rw [pexists, kindOf, if_neg (by simp [hP]),
      lookupFS_relocate_src _ _ _ _ (isPre_refl _) hDP]
    rfl

/-! ### Run-level lemmas -/

theorem runRows_append (fs : FS) (l₁ l₂ : List Row) :
    runRows fs (l₁ ++ l₂) =
      match runRows fs l₁ with
      | (f, none) => runRows f l₂
      | (f, some e) => (f, some e) := by
  induction l₁ generalizing fs with
  | nil => simp [runRows]
  | cons r rest ih =>
    simp only [List.cons_append, runRows]
    cases h : processRow fs r.team r.photo with
    | mk f e => cases e <;> simp [ih]

theorem runRows_ok_split (fs₀ : FS) (pre rest : List Row) (fs₁ : FS)
    (h : runRows fs₀ (pre ++ rest) = (fs₁, none)) :
    ∃ fsm, runRows fs₀ pre = (fsm, none) ∧ runRows fsm rest = (fs₁, none) := by
  rw [runRows_append] at h
  cases hp : runRows fs₀ pre with
  | mk f e =>
    cases e with
    | none =>
      rw [hp] at h
      exact ⟨f, rfl, h⟩
    | some e' =>
      rw [hp] at h
      simp at h

theorem isPre_two_false_of_snd_ne {b d : String} (h : b ≠ d)
    (a c : String) (rest : Path) :
    isPre [a, b] (c :: d :: rest) = false := by
  simp [isPre, h]

theorem runRows_frame (fs f : FS) (rows : List Row) (q : Path)
    (hok : runRows fs rows = (f, none))
    (hq : ∀ s ∈ rows, q ≠ [pyStrip s.team] ∧
      isPre [pyStrip s.photo] q = false ∧
      isPre [pyStrip s.team, pyStrip s.photo] q = false) :
    lookupFS f q = lookupFS fs q := by
  induction rows generalizing fs with
  | nil =>
    rw [runRows] at hok
    obtain ⟨rfl, -⟩ : fs = f ∧ True := by
      refine ⟨?_, trivial⟩
      exact congrArg Prod.fst hok
    rfl
  | cons r rest ih =>
    rw [runRows] at hok
    cases hr : processRow fs r.team r.photo with
    | mk f' e =>
      cases e with
      | some err =>
        rw [hr] at hok
        simp at hok
      | none =>
        rw [hr] at hok
        obtain ⟨hrT, hrP, hrTP⟩ := hq r (List.mem_cons_self r rest)
        have hstep : lookupFS (processRow fs r.team r.photo).1 q
            = lookupFS fs q :=
          processRow_frame fs r.team r.photo q (by rw [hr]) hrT hrP hrTP
        rw [hr] at hstep
        rw [ih f' hok (fun s hs => hq s (List.mem_cons_of_mem r hs))]
        exact hstep

/-! ### Claim C1: files move to the team directory -/

/-- Counterexample to C1 as stated: two rows with the same photo
filename.  The second row's photo named a file that existed before the
run and its team `Blue` is nonempty, the run completes without error,
yet afterwards no file is at `Blue/a.jpg` (the first row already moved
the file to `Red/a.jpg`). -/
theorem moved_to_team_directory_cex :
    (runRows [(["a.jpg"], Kind.file)]
      [⟨"Red", "a.jpg"⟩, ⟨"Blue", "a.jpg"⟩]).2 = none ∧
    lookupFS [(["a.jpg"], Kind.file)] [pyStrip "a.jpg"] = some Kind.file ∧
    pyStrip "Blue" ≠ "" ∧
    lookupFS (runRows [(["a.jpg"], Kind.file)]
      [⟨"Red", "a.jpg"⟩, ⟨"Blue", "a.jpg"⟩]).1
      [pyStrip "Blue", pyStrip "a.jpg"] = none := by
  decide

/-- C1 (amended): consider a run without error and a row `r` whose
trimmed photo named a file that existed before the run and whose
destination path was not an existing directory.  If no other row has the
same trimmed photo, no row's trimmed team equals `r`'s trimmed photo, and
no other row's trimmed photo equals `r`'s trimmed team, then: when `r`'s
trimmed team is nonempty the file afterwards sits at
`<team>/<photo>` and is gone from `<photo>`; when the trimmed team is
empty the file stays at `<photo>`. -/
theorem moved_to_team_directory (fs₀ fs₁ : FS) (pre post : List Row) (r : Row)
    (hrun : runRows fs₀ (pre ++ r :: post) = (fs₁, none))
    (hsrc : lookupFS fs₀ [pyStrip r.photo] = some Kind.file)
    (hdst : lookupFS fs₀ [pyStrip r.team, pyStrip r.photo] ≠ some Kind.dir)
    (hphotos : ∀ s ∈ pre ++ post, pyStrip s.photo ≠ pyStrip r.photo)
    (hteams : ∀ s ∈ pre ++ r :: post, pyStrip s.team ≠ pyStrip r.photo)
    (hteamsr : ∀ s ∈ pre ++ post, pyStrip s.photo ≠ pyStrip r.team) :
    (pyStrip r.team ≠ "" →
      lookupFS fs₁ [pyStrip r.team, pyStrip r.photo] = some Kind.file ∧
      lookupFS fs₁ [pyStrip r.photo] = none) ∧
    (pyStrip r.team = "" →
      lookupFS fs₁ [pyStrip r.photo] = some Kind.file) := by
  obtain ⟨fsm, hpre, hrest⟩ := runRows_ok_split fs₀ pre (r :: post) fs₁ hrun
  rw [runRows] at hrest
  cases hr : processRow fsm r.team r.photo with
  | mk fsr e =>
    cases e with
    | some err =>
      rw [hr] at hrest
      simp at hrest
    | none =>
      rw [hr] at hrest
      have hstepok : (processRow fsm r.team r.photo).2 = none := by rw [hr]
      have hcondP : ∀ s ∈ pre ++ post, [pyStrip r.photo] ≠ [pyStrip s.team] ∧
          isPre [pyStrip s.photo] [pyStrip r.photo] = false ∧
          isPre [pyStrip s.team, pyStrip s.photo] [pyStrip r.photo] = false := by
        intro s hs
        have hsT : pyStrip s.team ≠ pyStrip r.photo := by
          apply hteams
          rcases List.mem_append.1 hs with h | h
          · exact List.mem_append.2 (Or.inl h)
          · exact List.mem_append.2 (Or.inr (List.mem_cons_of_mem r h))
        refine ⟨by simp [Ne.symm hsT], isPre_one_of_ne (hphotos s hs) _,
          isPre_two_one _ _ _⟩
      have hcondTP : ∀ s ∈ pre ++ post,
          [pyStrip r.team, pyStrip r.photo] ≠ [pyStrip s.team] ∧
          isPre [pyStrip s.photo] [pyStrip r.team, pyStrip r.photo] = false ∧
          isPre [pyStrip s.team, pyStrip s.photo]
            [pyStrip r.team, pyStrip r.photo] = false := by
        intro s hs
        refine ⟨by simp, isPre_one_of_ne (hteamsr s hs) _,
          isPre_two_false_of_snd_ne (hphotos s hs) _ _ _⟩
      have hprecondP : ∀ s ∈ pre, _ := fun s hs =>
        hcondP s (List.mem_append.2 (Or.inl hs))
      have hsrcm : lookupFS fsm [pyStrip r.photo] = some Kind.file := by
        rw [runRows_frame fs₀ fsm pre _ hpre hprecondP]
        exact hsrc
      have hdstm : lookupFS fsm [pyStrip r.team, pyStrip r.photo]
          = lookupFS fs₀ [pyStrip r.team, pyStrip r.photo] :=
        runRows_frame fs₀ fsm pre _ hpre (fun s hs =>
          hcondTP s (List.mem_append.2 (Or.inl hs)))
      have hTP : pyStrip r.team ≠ pyStrip r.photo :=
        hteams r (List.mem_append.2 (Or.inr (List.mem_cons_self r post)))
      by_cases hT : pyStrip r.team = ""
      · refine ⟨fun h => absurd hT h, fun _ => ?_⟩
        have hre : fsr = fsm := by
          have := processRow_team_empty fsm r.team r.photo hT
          rw [this] at hr
          exact (congrArg Prod.fst hr).symm
        subst hre
        rw [runRows_frame fsr fs₁ post _ hrest (fun s hs =>
          hcondP s (List.mem_append.2 (Or.inr hs)))]
        exact hsrcm
      · refine ⟨fun _ => ?_, fun h => absurd h hT⟩
        rcases processRow_shape fsm r.team r.photo hstepok with ⟨hT', _⟩ |
          ⟨_, hP, ⟨hnone, _⟩ | ⟨D, hD, ⟨_, heq⟩ | ⟨hkdir, _, _⟩⟩⟩
        · exact absurd hT' hT
        · rw [hsrcm] at hnone
          cases hnone
        · have hDT : D = [pyStrip r.team, pyStrip r.photo] := by
            rcases hD with ⟨h, _⟩ | ⟨h, hd, _⟩
            · exact h
            · exfalso
              rw [isdir, kindOf, if_neg (by simp),
                lookupFS_ensFS_ne _ _ _ (by simp), hdstm] at hd
              rw [decide_eq_true_iff] at hd
              exact hdst hd
          subst hDT
          rw [heq] at hr
          have hfsr : fsr = setEntry
              (eraseEntry (ensFS fsm (pyStrip r.team)) [pyStrip r.photo])
              [pyStrip r.team, pyStrip r.photo] Kind.file :=
            (congrArg Prod.fst hr).symm
          subst hfsr
          constructor
          · rw [runRows_frame _ fs₁ post _ hrest (fun s hs =>
              hcondTP s (List.mem_append.2 (Or.inr hs)))]
            rw [lookupFS_setEntry, if_pos rfl]
          · rw [runRows_frame _ fs₁ post _ hrest (fun s hs =>
              hcondP s (List.mem_append.2 (Or.inr hs)))]
            rw [lookupFS_setEntry, if_neg (by simp), lookupFS_eraseEntry,
              if_pos rfl]
        · exfalso
          rw [kindOf, if_neg (by simp [hP]),
            lookupFS_ensFS_ne _ _ _ (by simp [Ne.symm hTP]), hsrcm] at hkdir
          cases hkdir

/-- Witness for C1: a three-row run where the middle row moves
`a.jpg` into `Red/`. -/
theorem moved_to_team_directory_witness :
    lookupFS [(["Green"], Kind.dir), (["Red", "a.jpg"], Kind.file),
        (["Red"], Kind.dir), (["Blue"], Kind.dir)]
      [pyStrip "Red", pyStrip "a.jpg"] = some Kind.file ∧
    lookupFS [(["Green"], Kind.dir), (["Red", "a.jpg"], Kind.file),
        (["Red"], Kind.dir), (["Blue"], Kind.dir)]
      [pyStrip "a.jpg"] = none :=
  (moved_to_team_directory [(["a.jpg"], Kind.file)]
    [(["Green"], Kind.dir), (["Red", "a.jpg"], Kind.file),
      (["Red"], Kind.dir), (["Blue"], Kind.dir)]
    [⟨"Blue", "b.jpg"⟩] [⟨"Green", "c.jpg"⟩] ⟨"Red", "a.jpg"⟩
    (by decide) (by decide) (by decide) (by decide) (by decide)
    (by decide)).1 (by decide)

/-! ### Claim C7: running twice in succession -/

theorem runRows_pexists_keep (fs f : FS) (rows : List Row) (q : Path)
    (hok : runRows fs rows = (f, none))
    (hq : ∀ s ∈ rows, isPre [pyStrip s.photo] q = false)
    (hpe : pexists fs q = true) :
    pexists f q = true := by
  induction rows generalizing fs with
  | nil =>
    rw [runRows] at hok
    have hfe : fs = f := congrArg Prod.fst hok
    rw [← hfe]
    exact hpe
  | cons a rest ih =>
    rw [runRows] at hok
    cases ha : processRow fs a.team a.photo with
    | mk f' e =>
      cases e with
      | some err =>
        rw [ha] at hok
        simp at hok
      | none =>
        rw [ha] at hok
        have := processRow_pexists_keep fs a.team a.photo q (by rw [ha])
          (hq a (List.mem_cons_self a rest)) hpe
        rw [ha] at this
        exact ih f' hok (fun s hs => hq s (List.mem_cons_of_mem a hs)) this

theorem runRows_absent_keep (fs f : FS) (rows : List Row) (q : Path)
    (hok : runRows fs rows = (f, none))
    (hq : ∀ s ∈ rows, q ≠ [pyStrip s.team] ∧
      isPre [pyStrip s.team, pyStrip s.photo] q = false)
    (hpe : pexists fs q = false) :
    pexists f q = false := by
  induction rows generalizing fs with
  | nil =>
    rw [runRows] at hok
    have hfe : fs = f := congrArg Prod.fst hok
    rw [← hfe]
    exact hpe
  | cons a rest ih =>
    rw [runRows] at hok
    cases ha : processRow fs a.team a.photo with
    | mk f' e =>
      cases e with
      | some err =>
        rw [ha] at hok
        simp at hok
      | none =>
        rw [ha] at hok
        obtain ⟨h1, h3⟩ := hq a (List.mem_cons_self a rest)
        have := processRow_absent_keep fs a.team a.photo q (by rw [ha])
          h1 h3 hpe
        rw [ha] at this
        exact ih f' hok (fun s hs => hq s (List.mem_cons_of_mem a hs)) this

theorem runRows_team_exists (fs fs₁ : FS) (rows : List Row)
    (hok : runRows fs rows = (fs₁, none))
    (hTP : ∀ r ∈ rows, ∀ s ∈ rows, pyStrip r.team ≠ pyStrip s.photo) :
    ∀ r ∈ rows, pexists fs₁ (joinSeg [] (pyStrip r.team)) = true := by
  induction rows generalizing fs with
  | nil => intro r hr; cases hr
  | cons a rest ih =>
    rw [runRows] at hok
    cases ha : processRow fs a.team a.photo with
    | mk f' e =>
      cases e with
      | some err =>
        rw [ha] at hok
        simp at hok
      | none =>
        rw [ha] at hok
        intro r hr
        cases hr with
        | head =>
          by_cases hT : pyStrip a.team = ""
          · rw [hT, joinSeg_empty, pexists_root]
          · have hstep := processRow_team_exists fs a.team a.photo
              (by rw [ha])
              (hTP a (List.mem_cons_self a rest) a (List.mem_cons_self a rest))
            rw [ha] at hstep
            rw [joinSeg_ne _ hT, List.nil_append] at hstep ⊢
            refine runRows_pexists_keep f' fs₁ rest [pyStrip a.team]
              hok (fun s hs => ?_) hstep
            exact isPre_one_of_ne
              (Ne.symm (hTP a (List.mem_cons_self a rest) s
                (List.mem_cons_of_mem a hs))) _
        | tail _ hm =>
          exact ih f' hok (fun x hx s hs =>
            hTP x (List.mem_cons_of_mem a hx) s (List.mem_cons_of_mem a hs))
            r hm

theorem runRows_src_gone (fs fs₁ : FS) (rows : List Row)
    (hok : runRows fs rows = (fs₁, none))
    (hTP : ∀ r ∈ rows, ∀ s ∈ rows, pyStrip r.team ≠ pyStrip s.photo) :
    ∀ r ∈ rows, pyStrip r.team ≠ "" →
      pexists fs₁ [pyStrip r.photo] = false := by
  induction rows generalizing fs with
  | nil => intro r hr; cases hr
  | cons a rest ih =>
    rw [runRows] at hok
    cases ha : processRow fs a.team a.photo with
    | mk f' e =>
      cases e with
      | some err =>
        rw [ha] at hok
        simp at hok
      | none =>
        rw [ha] at hok
        intro r hr hTne
        cases hr with
        | head =>
          have hstep := processRow_src_gone fs a.team a.photo (by rw [ha])
            hTne
            (hTP a (List.mem_cons_self a rest) a (List.mem_cons_self a rest))
          rw [ha] at hstep
          refine runRows_absent_keep f' fs₁ rest [pyStrip a.photo]
            hok (fun s hs => ?_) hstep
          refine ⟨?_, isPre_two_one _ _ _⟩
          have := hTP s (List.mem_cons_of_mem a hs) a
            (List.mem_cons_self a rest)
          simp [Ne.symm this]
        | tail _ hm =>
          exact ih f' hok (fun x hx s hs =>
            hTP x (List.mem_cons_of_mem a hx) s (List.mem_cons_of_mem a hs))
            r hm hTne

theorem runRows_photo_nonempty (fs fs₁ : FS) (rows : List Row)
    (hok : runRows fs rows = (fs₁, none)) :
    ∀ r ∈ rows, pyStrip r.team ≠ "" → pyStrip r.photo ≠ "" := by
  induction rows generalizing fs with
  | nil => intro r hr; cases hr
  | cons a rest ih =>
    rw [runRows] at hok
    cases ha : processRow fs a.team a.photo with
    | mk f' e =>
      cases e with
      | some err =>
        rw [ha] at hok
        simp at hok
      | none =>
        rw [ha] at hok
        intro r hr hTne
        cases hr with
        | head =>
          rcases processRow_shape fs a.team a.photo (by rw [ha]) with
            ⟨hT', _⟩ | ⟨_, hP, _⟩
          · exact absurd hT' hTne
          · exact hP
        | tail _ hm => exact ih f' hok r hm hTne

theorem processRow_noop (fs : FS) (t p : String)
    (hA : pexists fs (joinSeg [] (pyStrip t)) = true)
    (hB : pexists fs (joinSeg [] (pyStrip p)) = false) :
    processRow fs t p = (fs, none) := by
  rw [processRow, ensureTeamDir]
  simp only [if_pos hA]
  rw [if_neg (by simp [hB])]

theorem runRows_noop_of_facts (fs₁ : FS) (rows : List Row)
    (hA : ∀ r ∈ rows, pexists fs₁ (joinSeg [] (pyStrip r.team)) = true)
    (hB : ∀ r ∈ rows, pyStrip r.team ≠ "" →
      pexists fs₁ [pyStrip r.photo] = false)
    (hC : ∀ r ∈ rows, pyStrip r.team ≠ "" → pyStrip r.photo ≠ "") :
    runRows fs₁ rows = (fs₁, none) := by
  induction rows with
  | nil => rfl
  | cons a rest ih =>
    have hstep : processRow fs₁ a.team a.photo = (fs₁, none) := by
      by_cases hT : pyStrip a.team = ""
      · exact processRow_team_empty fs₁ a.team a.photo hT
      · have hP := hC a (List.mem_cons_self a rest) hT
        refine processRow_noop fs₁ a.team a.photo
          (hA a (List.mem_cons_self a rest)) ?_
        rw [joinSeg_ne _ hP, List.nil_append]
        exact hB a (List.mem_cons_self a rest) hT
    rw [runRows, hstep]
    exact ih (fun r hr => hA r (List.mem_cons_of_mem a hr))
      (fun r hr => hB r (List.mem_cons_of_mem a hr))
      (fun r hr => hC r (List.mem_cons_of_mem a hr))

/-- Counterexample to C7 as stated: with `Red` both a team value and a
photo value, the first run creates directory `Red` and then moves it to
`T/Red`; the second run recreates `Red` and moves it to `T/Red/Red`.
Both runs finish without error, yet the second run changes the state. -/
theorem second_run_noop_cex :
    (runRows [] [⟨"Red", "X"⟩, ⟨"T", "Red"⟩]).2 = none ∧
    (runRows (runRows [] [⟨"Red", "X"⟩, ⟨"T", "Red"⟩]).1
      [⟨"Red", "X"⟩, ⟨"T", "Red"⟩]).2 = none ∧
    lookupFS (runRows [] [⟨"Red", "X"⟩, ⟨"T", "Red"⟩]).1
      ["T", "Red", "Red"] = none ∧
    lookupFS (runRows (runRows [] [⟨"Red", "X"⟩, ⟨"T", "Red"⟩]).1
      [⟨"Red", "X"⟩, ⟨"T", "Red"⟩]).1 ["T", "Red", "Red"] =
      some Kind.dir := by
  decide

/-- C7 (amended): when no row's trimmed team value equals any row's
trimmed photo value, a second run on the state produced by an error-free
first run performs no operation at all: every team directory already
exists, every previously moved source is gone and is skipped, and the
filesystem state is returned unchanged, without error. -/
theorem second_run_noop (fs₀ fs₁ : FS) (rows : List Row)
    (hrun : runRows fs₀ rows = (fs₁, none))
    (hTP : ∀ r ∈ rows, ∀ s ∈ rows, pyStrip r.team ≠ pyStrip s.photo) :
    runRows fs₁ rows = (fs₁, none) :=
  runRows_noop_of_facts fs₁ rows
    (runRows_team_exists fs₀ fs₁ rows hrun hTP)
    (runRows_src_gone fs₀ fs₁ rows hrun hTP)
    (runRows_photo_nonempty fs₀ fs₁ rows hrun)

/-- Witness for C7: after moving `a.jpg` and `b.jpg` into their team
directories, a second run with the same rows leaves the state unchanged. -/
theorem second_run_noop_witness :
    runRows [(["Blue", "b.jpg"], Kind.file), (["Blue"], Kind.dir),
        (["Red", "a.jpg"], Kind.file), (["Red"], Kind.dir)]
      [⟨"Red", "a.jpg"⟩, ⟨"Blue", "b.jpg"⟩] =
      ([(["Blue", "b.jpg"], Kind.file), (["Blue"], Kind.dir),
        (["Red", "a.jpg"], Kind.file), (["Red"], Kind.dir)], none) :=
  second_run_noop [(["a.jpg"], Kind.file), (["b.jpg"], Kind.file)]
    [(["Blue", "b.jpg"], Kind.file), (["Blue"], Kind.dir),
      (["Red", "a.jpg"], Kind.file), (["Red"], Kind.dir)]
    [⟨"Red", "a.jpg"⟩, ⟨"Blue", "b.jpg"⟩] (by decide) (by decide)

/-! ### Claim C4: errors propagate and abort the remaining batch -/

/-- C4: errors raised while processing a row are not caught inside the
reorganizer: if the rows before `r` run without error reaching state
`fs₁`, and processing `r` from `fs₁` raises `e` leaving state `fs₂`, then
the whole run aborts with `e` in state `fs₂` — the effects of the rows
before `r` remain applied and no row after `r` has any effect. -/
theorem abort_on_error (fs₀ fs₁ fs₂ : FS) (pre post : List Row) (r : Row) (e : String)
    (h₁ : runRows fs₀ pre = (fs₁, none))
    (h₂ : processRow fs₁ r.team r.photo = (fs₂, some e)) :
    runRows fs₀ (pre ++ r :: post) = (fs₂, some e) := by
  rw [runRows_append, h₁]
  simp [runRows, h₂]

/-- Witness for C4: the first row moves `a.jpg` into `Red/`; the second
row fails because the team path `T` is an existing file; the third row is
never processed. -/
theorem abort_on_error_witness :
    runRows [(["a.jpg"], Kind.file), (["T"], Kind.file), (["x"], Kind.file)]
      ([⟨"Red", "a.jpg"⟩] ++ ⟨"T", "x"⟩ :: [⟨"Blue", "b.jpg"⟩]) =
      ([(["Red", "a.jpg"], Kind.file), (["Red"], Kind.dir),
        (["T"], Kind.file), (["x"], Kind.file)], some "NotADirectoryError") :=
  abort_on_error _
    [(["Red", "a.jpg"], Kind.file), (["Red"], Kind.dir),
      (["T"], Kind.file), (["x"], Kind.file)] _ _ _ _ _
    (by decide) (by decide)

/-! ### Claim C6: team directory creation is idempotent -/

/-- C6: team directory creation is idempotent: ensuring the team
directory never fails, afterwards the directory path exists, and ensuring
it again when it already exists changes nothing and raises no error, so
any number of rows sharing a team value yield exactly one directory. -/
theorem ensureTeamDir_idempotent (fs : FS) (tm : String) :
    (ensureTeamDir fs tm).2 = none ∧
    pexists (ensureTeamDir fs tm).1 (joinSeg [] tm) = true ∧
    ensureTeamDir (ensureTeamDir fs tm).1 tm = ((ensureTeamDir fs tm).1, none) := by
  by_cases htm : tm = ""
  · subst htm
    simp [ensureTeamDir, joinSeg, pexists_root]
  · have hj : joinSeg [] tm = [tm] := by simp [joinSeg, htm]
    cases hp : pexists fs [tm] with
    | true => simp [ensureTeamDir, hj, hp]
    | false =>
      simp [ensureTeamDir, hj, hp, makedirs_single fs tm hp, pexists_setEntry_self]

/-! ### Claim C2: rows with a missing source file -/

/-- Counterexample to C2 as stated: a row whose photo does not exist at
the source path still creates the team directory, and when the trimmed
team equals the trimmed photo the freshly created directory is then
found at the source path and the move of it fails — a filesystem change
and an error. -/
theorem missing_photo_not_silent :
    pexists ([] : FS) (joinSeg [] (pyStrip "Red")) = false ∧
    (processRow [] "Red" "Red").2 =
      some "shutil.Error: Cannot move a directory into itself" ∧
    lookupFS (processRow [] "Red" "Red").1 ["Red"] = some Kind.dir := by decide

/-- C2 amended: a row whose trimmed photo does not name an existing entry
at the source path, and whose trimmed team differs from its trimmed
photo, moves no file and raises no error; the only possible filesystem
change is the creation of the team directory when it is absent. -/
theorem missing_photo_skips (fs : FS) (t p : String)
    (hp : pexists fs (joinSeg [] (pyStrip p)) = false)
    (htp : pyStrip t ≠ pyStrip p) :
    (processRow fs t p).2 = none ∧
    ((processRow fs t p).1 = fs ∨
      (processRow fs t p).1 = setEntry fs [pyStrip t] Kind.dir) := by
  have hP : pyStrip p ≠ "" := by
    intro h
    rw [h] at hp
    simp [joinSeg, pexists_root] at hp
  have hj : joinSeg [] (pyStrip p) = [pyStrip p] := by simp [joinSeg, hP]
  rw [hj] at hp
  cases hT : pexists fs (joinSeg [] (pyStrip t)) with
  | true =>
    simp [processRow, ensureTeamDir, hT, hj, hp]
  | false =>
    have hTne : pyStrip t ≠ "" := by
      intro h
      rw [h] at hT
      simp [joinSeg, pexists_root] at hT
    have hjT : joinSeg [] (pyStrip t) = [pyStrip t] := by simp [joinSeg, hTne]
    rw [hjT] at hT
    have hafter : pexists (setEntry fs [pyStrip t] Kind.dir) [pyStrip p] = false := by
      simp [pexists, kindOf, hP, lookupFS_setEntry, htp.symm]
      simpa [pexists, kindOf, hP] using hp
    simp [processRow, ensureTeamDir, hjT, hT, makedirs_single fs _ hT, hj, hafter]

/-- Witness for C2: a missing photo with a fresh team creates only the
team directory and raises no error. -/
theorem missing_photo_skips_witness :
    (processRow ([] : FS) "Red" "c.jpg").2 = none ∧
    ((processRow ([] : FS) "Red" "c.jpg").1 = ([] : FS) ∨
      (processRow ([] : FS) "Red" "c.jpg").1 =
        setEntry ([] : FS) [pyStrip "Red"] Kind.dir) :=
  missing_photo_skips [] "Red" "c.jpg" (by decide) (by decide)

/-! ### Claim C3: missing configured column -/

theorem getCell_not_mem {header : List String} {col : String}
    (h : col ∉ header) (cells : List String) :
    getCell header cells col = none := by
  induction header generalizing cells with
  | nil => rfl
  | cons x xs ih =>
    have hx : x ≠ col := fun hc => h (hc ▸ List.mem_cons_self x xs)
    simp [getCell, hx]
    exact ih (fun hc => h (List.mem_cons_of_mem x hc)) cells.tail

theorem getCell_mem {header : List String} {col : String}
    (h : col ∈ header) (cells : List String) :
    ∃ v, getCell header cells col = some v := by
  induction header generalizing cells with
  | nil => cases h
  | cons x xs ih =>
    by_cases hx : x = col
    · exact ⟨cells.headD "", by simp [getCell, hx]⟩
    · have : col ∈ xs := by
        cases h with
        | head => exact absurd rfl hx
        | tail _ hm => exact hm
      simpa [getCell, hx] using ih this cells.tail

/-- Counterexample to C3 as stated: with a table that has no data rows,
a missing configured column raises no error at all — the run returns
successfully. -/
theorem missing_column_empty_table_no_error :
    ¬ ("Team" ∈ (["A"] : List String)) ∧
    organize_photos_by_team ⟨["A"], []⟩ "Team" "Photo" [] = ([], none) := by
  decide

/-- C3 amended: when the configured team column or photo column is not in
the header and the table has at least one data row, the run fails with the
schema error on first row access and the filesystem state is unchanged. -/
theorem missing_column_schema_error (tbl : Table) (tc pc : String) (fs : FS)
    (hmiss : tc ∉ tbl.header ∨ pc ∉ tbl.header)
    (hrows : tbl.rows ≠ []) :
    organize_photos_by_team tbl tc pc fs = (fs, some "KeyError") := by
  obtain ⟨header, rows⟩ := tbl
  cases rows with
  | nil => exact absurd rfl hrows
  | cons cells rest =>
    simp only [organize_photos_by_team, organizeLoop]
    by_cases htc : tc ∈ header
    · have hpc : pc ∉ header := by
        cases hmiss with
        | inl h => exact absurd htc h
        | inr h => exact h
      obtain ⟨v, hv⟩ := getCell_mem htc cells
      rw [hv, getCell_not_mem hpc]
    · rw [getCell_not_mem htc]

/-- Witness for C3: one data row and a header without the team column
fail with the schema error, leaving the state unchanged. -/
theorem missing_column_schema_error_witness :
    organize_photos_by_team ⟨["A"], [["x"]]⟩ "Team" "Photo" [] =
      ([], some "KeyError") :=
  missing_column_schema_error ⟨["A"], [["x"]]⟩ "Team" "Photo" []
    (Or.inl (by decide)) (by decide)

/-! ### Claim C10: the source check is existence-only, directories move -/

theorem lookupFS_none_of_no_pre {fs : FS} {pre : Path}
    (h : ∀ e ∈ fs, isPre pre e.1 = false) (r : Path) :
    lookupFS fs (pre ++ r) = none := by
  induction fs with
  | nil => rfl
  | cons e rest ih =>
    obtain ⟨ke, ve⟩ := e
    have hke : ke ≠ pre ++ r := by
      intro hq
      have := h (ke, ve) (List.mem_cons_self _ _)
      rw [hq, isPre_append_self] at this
      cases this
    rw [lookupFS, if_neg hke]
    exact ih (fun x hx => h x (List.mem_cons_of_mem _ hx))

theorem lookupFS_relocate_dst (fs : FS) (src dst rest : Path)
    (hnone : ∀ r, lookupFS fs (dst ++ r) = none) :
    lookupFS (relocate fs src dst) (dst ++ rest) =
      lookupFS fs (src ++ rest) := by
  induction fs with
  | nil => rfl
  | cons e tail ih =>
    obtain ⟨ke, ve⟩ := e
    have hhead : ke ≠ dst ++ rest := by
      intro hq
      have := hnone rest
      rw [lookupFS, if_pos hq] at this
      cases this
    have htail : ∀ r, lookupFS tail (dst ++ r) = none := by
      intro r
      have := hnone r
      rw [lookupFS] at this
      by_cases hk : ke = dst ++ r
      · rw [if_pos hk] at this
        cases this
      · rwa [if_neg hk] at this
    have ih' : lookupFS (relocate tail src dst) (dst ++ rest) =
        lookupFS tail (src ++ rest) := ih htail
    show lookupFS ((rePath src dst ke, ve) :: relocate tail src dst)
      (dst ++ rest) = lookupFS ((ke, ve) :: tail) (src ++ rest)
    by_cases hs : isPre src ke = true
    · obtain ⟨tl, rfl⟩ := (isPre_iff _ _).1 hs
      have hdrop : (src ++ tl).drop src.length = tl := List.drop_left _ _
      have hre : rePath src dst (src ++ tl) = dst ++ tl := by
        rw [rePath, if_pos hs, hdrop]
      rw [hre]
      by_cases hteq : tl = rest
      · subst hteq
        rw [lookupFS, if_pos rfl, lookupFS, if_pos rfl]
      · have h1 : dst ++ tl ≠ dst ++ rest := by
          intro hc
          exact hteq (List.append_cancel_left hc)
        have h2 : src ++ tl ≠ src ++ rest := by
          intro hc
          exact hteq (List.append_cancel_left hc)
        rw [lookupFS, if_neg h1, lookupFS, if_neg h2]
        exact ih'
    · rw [Bool.not_eq_true] at hs
      have hre : rePath src dst ke = ke := by rw [rePath, hs]; simp
      have h2 : ke ≠ src ++ rest := by
        intro hq
        rw [hq, isPre_append_self] at hs
        cases hs
      rw [hre, lookupFS, if_neg hhead, lookupFS, if_neg h2]
      exact ih'

/-- C10: the per-row source check is `os.path.exists`, not a
regular-file check: when the entry at the trimmed photo path is a
directory (and the team directory is fresh: no entry lies at or under the
team path), the move is still performed without error, the directory is
relocated into the team directory, and its whole subtree moves with it. -/
theorem directory_source_still_moved (fs : FS) (t p : String)
    (hT : pyStrip t ≠ "") (hP : pyStrip p ≠ "")
    (hsrc : lookupFS fs [pyStrip p] = some Kind.dir)
    (hfresh : ∀ e ∈ fs, isPre [pyStrip t] e.1 = false) :
    (processRow fs t p).2 = none ∧
    lookupFS (processRow fs t p).1 [pyStrip t, pyStrip p] = some Kind.dir ∧
    lookupFS (processRow fs t p).1 [pyStrip p] = none ∧
    ∀ rest, lookupFS (processRow fs t p).1
      ([pyStrip t, pyStrip p] ++ rest) = lookupFS fs ([pyStrip p] ++ rest) := by
  set T := pyStrip t with hTdef
  set P := pyStrip p with hPdef
  have hTsub : ∀ r, lookupFS fs ([T] ++ r) = none :=
    lookupFS_none_of_no_pre hfresh
  have hTP : T ≠ P := by
    intro h
    have := hTsub []
    rw [List.append_nil, h, hsrc] at this
    cases this
  have hTpe : pexists fs [T] = false := by
    rw [pexists, kindOf, if_neg (by simp)]
    have := hTsub []
    rw [List.append_nil] at this
    rw [this]
    rfl
  have hfs₁ : ensFS fs T = setEntry fs [T] Kind.dir := by
    rw [ensFS, hTpe]
    simp
  -- the one-step computation
  have hPT : ([P] : Path) ≠ [T] := by simp [Ne.symm hTP]
  have hsrc₁ : lookupFS (setEntry fs [T] Kind.dir) [P] = some Kind.dir := by
    rw [lookupFS_setEntry, if_neg hPT, hsrc]
  have hdst₁ : lookupFS (setEntry fs [T] Kind.dir) [T, P] = none := by
    rw [lookupFS_setEntry, if_neg (by simp)]
    have := hTsub [P]
    rwa [show ([T] ++ [P] : Path) = [T, P] from rfl] at this
  have heq : processRow fs t p =
      (relocate (setEntry fs [T] Kind.dir) [P] [T, P], none) := by
    rw [processRow, ensureTeamDir_spec fs hT, hfs₁]
    simp only [joinSeg_ne _ hP, joinSeg_ne _ hT, List.nil_append,
      List.singleton_append]
    rw [if_pos (by
      rw [pexists, kindOf, if_neg (by simp [hPdef, hP]), hsrc₁]
      rfl)]
    rw [shutilMove, if_neg (by rw [isdir, kindOf, if_neg (by simp), hdst₁]; simp)]
    rw [rename_dir _ _ _ (by rw [kindOf, if_neg (by simp [hPdef, hP]), hsrc₁])]
    rw [if_neg (show ([P] : Path) ≠ [T, P] by simp)]
    rw [if_neg (by
      show ¬((!(isdir (setEntry fs [T] Kind.dir) ([T, P] : Path).dropLast))
        = true)
      have : (([T, P] : Path).dropLast) = [T] := rfl
      rw [this, isdir, kindOf, if_neg (by simp), lookupFS_setEntry,
        if_pos rfl]
      simp)]
    rw [if_neg (by rw [isPre_one_of_ne (Ne.symm hTP)]; simp)]
    rw [if_neg (by rw [kindOf, if_neg (by simp), hdst₁]; simp)]
    rw [if_neg (by rw [pexists, kindOf, if_neg (by simp), hdst₁]; simp)]
  have hsub₁ : ∀ r, lookupFS (setEntry fs [T] Kind.dir) ([T, P] ++ r)
      = none := by
    intro r
    rw [lookupFS_setEntry, if_neg (by simp)]
    have := hTsub ([P] ++ r)
    rwa [show ([T] ++ ([P] ++ r) : Path) = [T, P] ++ r from rfl] at this
  have hrest : ∀ rest, lookupFS (processRow fs t p).1 ([T, P] ++ rest)
      = lookupFS fs ([P] ++ rest) := by
    intro rest
    rw [heq]
    simp only
    rw [show ([T, P] : Path) = [T] ++ [P] from rfl] at hsub₁ ⊢
    rw [lookupFS_relocate_dst _ _ _ _ hsub₁]
    rw [lookupFS_setEntry, if_neg (by
      intro hc
      cases rest with
      | nil =>
        rw [List.append_nil] at hc
        simp at hc
        exact hTP hc.symm
      | cons x xs => simp at hc)]
  refine ⟨by rw [heq], ?_, ?_, hrest⟩
  · have h2 := hrest []
    rw [List.append_nil, List.append_nil] at h2
    rw [h2, hsrc]
  · rw [heq]
    simp only
    rw [lookupFS_relocate_src _ _ _ _ (isPre_refl _)
      (isPre_false_of_length_lt (by simp))]

/-- Witness for C10: the directory `d` (with child `d/x`) is moved into
the fresh team directory `T`, child included. -/
theorem directory_source_still_moved_witness :
    (processRow [(["d"], Kind.dir), (["d", "x"], Kind.file)] "T" "d").2 =
      none ∧
    lookupFS (processRow [(["d"], Kind.dir), (["d", "x"], Kind.file)]
      "T" "d").1 [pyStrip "T", pyStrip "d"] = some Kind.dir :=
  ⟨(directory_source_still_moved [(["d"], Kind.dir), (["d", "x"], Kind.file)]
      "T" "d" (by decide) (by decide) (by decide) (by decide)).1,
    (directory_source_still_moved [(["d"], Kind.dir), (["d", "x"], Kind.file)]
      "T" "d" (by decide) (by decide) (by decide) (by decide)).2.1⟩

/-! ### Claim C8: row order and the final state -/

theorem any_false_of {α : Type} (l : List α) (f : α → Bool)
    (h : ∀ x ∈ l, f x = false) : l.any f = false := by
  cases ha : l.any f with
  | false => rfl
  | true =>
    rw [List.any_eq_true] at ha
    obtain ⟨x, hx, hfx⟩ := ha
    rw [h x hx] at hfx
    cases hfx

theorem any_perm {α : Type} {l l' : List α} (h : l.Perm l') (f : α → Bool) :
    l.any f = l'.any f := by
  cases h1 : l.any f with
  | true =>
    rw [List.any_eq_true] at h1
    obtain ⟨x, hx, hfx⟩ := h1
    exact (List.any_eq_true.mpr ⟨x, h.mem_iff.mp hx, hfx⟩).symm
  | false =>
    cases h2 : l'.any f with
    | false => rfl
    | true =>
      rw [List.any_eq_true] at h2
      obtain ⟨x, hx, hfx⟩ := h2
      have : l.any f = true := List.any_eq_true.mpr ⟨x, h.mem_iff.mpr hx, hfx⟩
      rw [h1] at this
      cases this

theorem cLook_nil (fs₀ : FS) (q : Path) : cLook fs₀ [] q = lookupFS fs₀ q := by
  simp [cLook]

theorem cLook_perm (fs₀ : FS) {done done' : List Row} (h : done.Perm done')
    (q : Path) : cLook fs₀ done q = cLook fs₀ done' q := by
  unfold cLook
  rw [any_perm h, any_perm h, any_perm h]

theorem cLook_append_no_r (fs₀ : FS) (done : List Row) (r : Row) (q : Path)
    (k1 : (rowMoved fs₀ r && q == rowDst fs₀ r) = false)
    (k2 : (rowMoved fs₀ r && q == [pyStrip r.photo]) = false)
    (k3 : (!(pyStrip r.team == "") && q == [pyStrip r.team]) = false) :
    cLook fs₀ (done ++ [r]) q = cLook fs₀ done q := by
  unfold cLook
  rw [List.any_append, List.any_append, List.any_append]
  simp only [List.any_cons, List.any_nil, Bool.or_false, k1, k2, k3]

theorem rowDst_ne_one (fs₀ : FS) (r : Row) (a : String) :
    (([a] : Path) == rowDst fs₀ r) = false := by
  rw [rowDst]
  split <;> (rw [beq_eq_false_iff_ne]; simp)

theorem cLook_read_src (fs₀ : FS) (done : List Row) (r : Row)
    (h1 : ∀ s ∈ done, pyStrip s.photo ≠ pyStrip r.photo)
    (h2 : ∀ s ∈ done, pyStrip s.team ≠ pyStrip r.photo) :
    cLook fs₀ done [pyStrip r.photo] = lookupFS fs₀ [pyStrip r.photo] := by
  unfold cLook
  rw [any_false_of _ _ (fun s hs => by
      rw [rowDst_ne_one fs₀ s (pyStrip r.photo)]
      simp),
    any_false_of _ _ (fun s hs => by
      rw [show (([pyStrip r.photo] : Path) == [pyStrip s.photo]) = false by
        rw [beq_eq_false_iff_ne]
        simp [Ne.symm (h1 s hs)]]
      simp),
    any_false_of _ _ (fun s hs => by
      rw [show (([pyStrip r.photo] : Path) == [pyStrip s.team]) = false by
        rw [beq_eq_false_iff_ne]
        simp [Ne.symm (h2 s hs)]]
      simp)]
  simp

theorem beq_two_one (a b c : String) : (([a, b] : Path) == [c]) = false := by
  rw [beq_eq_false_iff_ne]
  simp

theorem beq_three_one (a b c d : String) :
    (([a, b, c] : Path) == [d]) = false := by
  rw [beq_eq_false_iff_ne]
  simp

theorem cLook_read_dst2 (fs₀ : FS) (done : List Row) (r : Row)
    (h1 : ∀ s ∈ done, pyStrip s.photo ≠ pyStrip r.photo) :
    cLook fs₀ done [pyStrip r.team, pyStrip r.photo] =
      lookupFS fs₀ [pyStrip r.team, pyStrip r.photo] := by
  unfold cLook
  rw [any_false_of _ _ (fun s hs => by
      rw [show (([pyStrip r.team, pyStrip r.photo] : Path)
          == rowDst fs₀ s) = false by
        rw [rowDst]
        split <;> (rw [beq_eq_false_iff_ne]; simp [Ne.symm (h1 s hs)])]
      simp),
    any_false_of _ _ (fun s hs => by rw [beq_two_one]; simp),
    any_false_of _ _ (fun s hs => by rw [beq_two_one]; simp)]
  simp

theorem cLook_read_dst3 (fs₀ : FS) (done : List Row) (r : Row)
    (h1 : ∀ s ∈ done, pyStrip s.photo ≠ pyStrip r.photo) :
    cLook fs₀ done [pyStrip r.team, pyStrip r.photo, pyStrip r.photo] =
      lookupFS fs₀ [pyStrip r.team, pyStrip r.photo, pyStrip r.photo] := by
  unfold cLook
  rw [any_false_of _ _ (fun s hs => by
      rw [show (([pyStrip r.team, pyStrip r.photo, pyStrip r.photo] : Path)
          == rowDst fs₀ s) = false by
        rw [rowDst]
        split <;> (rw [beq_eq_false_iff_ne]; simp [Ne.symm (h1 s hs)])]
      simp),
    any_false_of _ _ (fun s hs => by rw [beq_three_one]; simp),
    any_false_of _ _ (fun s hs => by rw [beq_three_one]; simp)]
  simp

theorem cLook_read_team (fs₀ : FS) (done : List Row) (r : Row)
    (h3 : ∀ s ∈ done, pyStrip s.photo ≠ pyStrip r.team) :
    cLook fs₀ done [pyStrip r.team] =
      (if (done.any (fun s => !(pyStrip s.team == "") &&
            (([pyStrip r.team] : Path) == [pyStrip s.team])) &&
          (lookupFS fs₀ [pyStrip r.team] == none)) = true
        then some Kind.dir else lookupFS fs₀ [pyStrip r.team]) := by
  unfold cLook
  rw [any_false_of _ _ (fun s hs => by
      rw [rowDst_ne_one fs₀ s (pyStrip r.team)]
      simp),
    any_false_of _ _ (fun s hs => by
      rw [show (([pyStrip r.team] : Path) == [pyStrip s.photo]) = false by
        rw [beq_eq_false_iff_ne]
        simp [Ne.symm (h3 s hs)]]
      simp)]
  simp

theorem ens_team_char (fs₀ cur : FS) (done : List Row) (r : Row)
    (hinv : ∀ q, lookupFS cur q = cLook fs₀ done q)
    (h3 : ∀ s ∈ done, pyStrip s.photo ≠ pyStrip r.team)
    (h4 : pyStrip r.team ≠ pyStrip r.photo)
    (hT : pyStrip r.team ≠ "") :
    lookupFS (ensFS cur (pyStrip r.team)) [pyStrip r.team] =
      cLook fs₀ (done ++ [r]) [pyStrip r.team] := by
  have a1 : (done ++ [r]).any (fun s => rowMoved fs₀ s &&
      (([pyStrip r.team] : Path) == rowDst fs₀ s)) = false :=
    any_false_of _ _ (fun s hs => by
      rw [rowDst_ne_one fs₀ s (pyStrip r.team)]
      simp)
  have a2 : (done ++ [r]).any (fun s => rowMoved fs₀ s &&
      (([pyStrip r.team] : Path) == [pyStrip s.photo])) = false :=
    any_false_of _ _ (fun s hs => by
      rcases List.mem_append.1 hs with h | h
      · rw [show (([pyStrip r.team] : Path) == [pyStrip s.photo]) = false by
          rw [beq_eq_false_iff_ne]
          simp [Ne.symm (h3 s h)]]
        simp
      · rw [List.mem_singleton] at h
        subst h
        rw [show (([pyStrip s.team] : Path) == [pyStrip s.photo]) = false by
          rw [beq_eq_false_iff_ne]
          simp [h4]]
        simp)
  have a3 : (done ++ [r]).any (fun s => !(pyStrip s.team == "") &&
      (([pyStrip r.team] : Path) == [pyStrip s.team])) = true := by
    rw [List.any_append]
    simp [hT]
  have hcurT := hinv [pyStrip r.team]
  rw [cLook_read_team fs₀ done r h3] at hcurT
  unfold cLook
  rw [a1, a2, a3]
  simp only [Bool.false_eq_true, if_false, Bool.true_and]
  cases hb : lookupFS fs₀ [pyStrip r.team] with
  | none =>
    rw [hb] at hcurT
    simp only [beq_self_eq_true, Bool.and_true] at hcurT
    rw [if_pos (by simp)]
    by_cases hp : pexists cur [pyStrip r.team] = true
    · have hens : ensFS cur (pyStrip r.team) = cur := by rw [ensFS, hp]; simp
      rw [hens]
      cases ha : done.any (fun s => !(pyStrip s.team == "") &&
          (([pyStrip r.team] : Path) == [pyStrip s.team])) with
      | true =>
        rw [ha] at hcurT
        simpa using hcurT
      | false =>
        exfalso
        rw [ha] at hcurT
        simp only [Bool.false_eq_true, if_false] at hcurT
        rw [pexists, kindOf, if_neg (by simp [hT]), hcurT] at hp
        cases hp
    · have hens : ensFS cur (pyStrip r.team) =
          setEntry cur [pyStrip r.team] Kind.dir := by
        rw [ensFS, if_neg hp]
      rw [hens, lookupFS_setEntry, if_pos rfl]
  | some v =>
    rw [hb] at hcurT
    have hcurT' : lookupFS cur [pyStrip r.team] = some v := by
      rw [hcurT]
      rw [if_neg (by simp)]
    rw [if_neg (by simp)]
    have hp : pexists cur [pyStrip r.team] = true := by
      rw [pexists, kindOf, if_neg (by simp [hT]), hcurT']
      rfl
    have hens : ensFS cur (pyStrip r.team) = cur := by rw [ensFS, hp]; simp
    rw [hens, hcurT']

theorem ens_team_isdir (fs₀ cur : FS) (done : List Row) (r : Row)
    (hinv : ∀ q, lookupFS cur q = cLook fs₀ done q)
    (h3 : ∀ s ∈ done, pyStrip s.photo ≠ pyStrip r.team)
    (hT : pyStrip r.team ≠ "")
    (hTfile : lookupFS fs₀ [pyStrip r.team] ≠ some Kind.file) :
    isdir (ensFS cur (pyStrip r.team)) [pyStrip r.team] = true := by
  have hcurT := hinv [pyStrip r.team]
  rw [cLook_read_team fs₀ done r h3] at hcurT
  by_cases hp : pexists cur [pyStrip r.team] = true
  · have hens : ensFS cur (pyStrip r.team) = cur := by rw [ensFS, hp]; simp
    rw [hens, isdir, kindOf, if_neg (by simp [hT]), hcurT]
    split
    · simp
    · rename_i hcond
      rw [pexists, kindOf, if_neg (by simp [hT]), hcurT, if_neg hcond] at hp
      cases hl : lookupFS fs₀ [pyStrip r.team] with
      | none =>
        rw [hl] at hp
        cases hp
      | some v =>
        cases v with
        | file => exact absurd hl hTfile
        | dir => simp [hl]
  · have hens : ensFS cur (pyStrip r.team) =
        setEntry cur [pyStrip r.team] Kind.dir := by
      rw [ensFS, if_neg hp]
    rw [hens, isdir, kindOf, if_neg (by simp [hT]), lookupFS_setEntry,
      if_pos rfl]
    simp

theorem move_state_char (fs₀ cur : FS) (done : List Row) (r : Row) (D : Path)
    (hinv : ∀ q, lookupFS cur q = cLook fs₀ done q)
    (h1 : ∀ s ∈ done, pyStrip s.photo ≠ pyStrip r.photo)
    (h3 : ∀ s ∈ done, pyStrip s.photo ≠ pyStrip r.team)
    (h4 : pyStrip r.team ≠ pyStrip r.photo)
    (hT : pyStrip r.team ≠ "")
    (hMoved : rowMoved fs₀ r = true)
    (hD : rowDst fs₀ r = D)
    (hDshape : D = [pyStrip r.team, pyStrip r.photo] ∨
      D = [pyStrip r.team, pyStrip r.photo, pyStrip r.photo]) :
    ∀ q, lookupFS (setEntry
        (eraseEntry (ensFS cur (pyStrip r.team)) [pyStrip r.photo]) D
        Kind.file) q = cLook fs₀ (done ++ [r]) q := by
  intro q
  have hPD : ([pyStrip r.photo] : Path) ≠ D := by
    rcases hDshape with rfl | rfl <;> simp
  have hTD : ([pyStrip r.team] : Path) ≠ D := by
    rcases hDshape with rfl | rfl <;> simp
  have hTP1 : ([pyStrip r.team] : Path) ≠ [pyStrip r.photo] := by simp [h4]
  by_cases hq1 : q = D
  · rw [hq1, lookupFS_setEntry, if_pos rfl]
    have ha : (done ++ [r]).any (fun s => rowMoved fs₀ s &&
        (D == rowDst fs₀ s)) = true := by
      rw [List.any_append]
      simp only [List.any_cons, List.any_nil, Bool.or_false]
      rw [hMoved, hD]
      simp
    unfold cLook
    rw [ha]
    simp
  · by_cases hq2 : q = [pyStrip r.photo]
    · rw [hq2, lookupFS_setEntry, if_neg hPD, lookupFS_eraseEntry, if_pos rfl]
      have ha1 : (done ++ [r]).any (fun s => rowMoved fs₀ s &&
          (([pyStrip r.photo] : Path) == rowDst fs₀ s)) = false :=
        any_false_of _ _ (fun s hs => by
          rw [rowDst_ne_one fs₀ s (pyStrip r.photo)]
          simp)
      have ha2 : (done ++ [r]).any (fun s => rowMoved fs₀ s &&
          (([pyStrip r.photo] : Path) == [pyStrip s.photo])) = true := by
        rw [List.any_append]
        simp only [List.any_cons, List.any_nil, Bool.or_false]
        rw [hMoved]
        simp
      unfold cLook
      rw [ha1, ha2]
      simp
    · by_cases hq3 : q = [pyStrip r.team]
      · rw [hq3, lookupFS_setEntry, if_neg hTD, lookupFS_eraseEntry,
          if_neg hTP1]
        exact ens_team_char fs₀ cur done r hinv h3 h4 hT
      · rw [lookupFS_setEntry, if_neg hq1, lookupFS_eraseEntry, if_neg hq2,
          lookupFS_ensFS_ne _ _ _ hq3, hinv q,
          cLook_append_no_r fs₀ done r q
            (by rw [hD, show (q == D) = false from beq_eq_false_iff_ne.mpr hq1]
                simp)
            (by rw [show (q == [pyStrip r.photo]) = false from
                  beq_eq_false_iff_ne.mpr hq2]
                simp)
            (by rw [show (q == [pyStrip r.team]) = false from
                  beq_eq_false_iff_ne.mpr hq3]
                simp)]

theorem step_char (fs₀ cur : FS) (done : List Row) (r : Row)
    (hinv : ∀ q, lookupFS cur q = cLook fs₀ done q)
    (h1 : ∀ s ∈ done, pyStrip s.photo ≠ pyStrip r.photo)
    (h2 : ∀ s ∈ done, pyStrip s.team ≠ pyStrip r.photo)
    (h3 : ∀ s ∈ done, pyStrip s.photo ≠ pyStrip r.team)
    (h4 : pyStrip r.team ≠ pyStrip r.photo)
    (h5 : pyStrip r.photo ≠ "")
    (h6 : lookupFS fs₀ [pyStrip r.photo] ≠ some Kind.dir) :
    ((processRow cur r.team r.photo).2 = none ↔ rowOkB fs₀ r = true) ∧
    (rowOkB fs₀ r = true →
      ∀ q, lookupFS (processRow cur r.team r.photo).1 q =
        cLook fs₀ (done ++ [r]) q) := by
  by_cases hT : pyStrip r.team = ""
  · have heq := processRow_team_empty cur r.team r.photo hT
    refine ⟨?_, fun _ q => ?_⟩
    · rw [heq]
      simp [rowOkB, hT]
    · rw [heq]
      show lookupFS cur q = cLook fs₀ (done ++ [r]) q
      rw [hinv q, cLook_append_no_r fs₀ done r q
        (by simp [rowMoved, hT]) (by simp [rowMoved, hT]) (by simp [hT])]
  · have hsrcview : lookupFS cur [pyStrip r.photo] =
        lookupFS fs₀ [pyStrip r.photo] := by
      rw [hinv]
      exact cLook_read_src fs₀ done r h1 h2
    have hd2 : lookupFS cur [pyStrip r.team, pyStrip r.photo] =
        lookupFS fs₀ [pyStrip r.team, pyStrip r.photo] := by
      rw [hinv]
      exact cLook_read_dst2 fs₀ done r h1
    have hd3 : lookupFS cur
        [pyStrip r.team, pyStrip r.photo, pyStrip r.photo] =
        lookupFS fs₀ [pyStrip r.team, pyStrip r.photo, pyStrip r.photo] := by
      rw [hinv]
      exact cLook_read_dst3 fs₀ done r h1
    have hbody : processRow cur r.team r.photo =
        (if pexists (ensFS cur (pyStrip r.team)) [pyStrip r.photo] = true
          then shutilMove (ensFS cur (pyStrip r.team)) [pyStrip r.photo]
            [pyStrip r.team, pyStrip r.photo]
          else (ensFS cur (pyStrip r.team), none)) := by
      rw [processRow, ensureTeamDir_spec cur hT]
      simp only [joinSeg_ne _ h5, joinSeg_ne _ hT, List.nil_append,
        List.singleton_append]
    have heP : lookupFS (ensFS cur (pyStrip r.team)) [pyStrip r.photo] =
        lookupFS fs₀ [pyStrip r.photo] := by
      rw [lookupFS_ensFS_ne _ _ _ (by simp [Ne.symm h4]), hsrcview]
    have he2 : lookupFS (ensFS cur (pyStrip r.team))
        [pyStrip r.team, pyStrip r.photo] =
        lookupFS fs₀ [pyStrip r.team, pyStrip r.photo] := by
      rw [lookupFS_ensFS_ne _ _ _ (by simp), hd2]
    have he3 : lookupFS (ensFS cur (pyStrip r.team))
        [pyStrip r.team, pyStrip r.photo, pyStrip r.photo] =
        lookupFS fs₀ [pyStrip r.team, pyStrip r.photo, pyStrip r.photo] := by
      rw [lookupFS_ensFS_ne _ _ _ (by simp), hd3]
    have hpex : pexists (ensFS cur (pyStrip r.team)) [pyStrip r.photo] =
        (lookupFS fs₀ [pyStrip r.photo]).isSome := by
      rw [pexists, kindOf, if_neg (by simp [h5]), heP]
    cases hsrc0 : lookupFS fs₀ [pyStrip r.photo] with
    | none =>
      have hskip : processRow cur r.team r.photo =
          (ensFS cur (pyStrip r.team), none) := by
        rw [hbody, if_neg (by rw [hpex, hsrc0]; simp)]
      refine ⟨?_, fun _ q => ?_⟩
      · rw [hskip]
        simp [rowOkB, hsrc0]
      · rw [hskip]
        show lookupFS (ensFS cur (pyStrip r.team)) q =
          cLook fs₀ (done ++ [r]) q
        by_cases hqT : q = [pyStrip r.team]
        · rw [hqT]
          exact ens_team_char fs₀ cur done r hinv h3 h4 hT
        · rw [lookupFS_ensFS_ne _ _ _ hqT, hinv q,
            cLook_append_no_r fs₀ done r q
              (by simp [rowMoved, hsrc0])
              (by simp [rowMoved, hsrc0])
              (by rw [show (q == [pyStrip r.team]) = false from
                    beq_eq_false_iff_ne.mpr hqT]
                  simp)]
    | some k =>
      have hkf : k = Kind.file := by
        cases k with
        | file => rfl
        | dir => exact absurd hsrc0 h6
      subst hkf
      have hMoved : rowMoved fs₀ r = true := by
        simp [rowMoved, hT, hsrc0]
      have hmoveeq : processRow cur r.team r.photo =
          shutilMove (ensFS cur (pyStrip r.team)) [pyStrip r.photo]
            [pyStrip r.team, pyStrip r.photo] := by
        rw [hbody, if_pos (by rw [hpex, hsrc0]; rfl)]
      have hkind : kindOf (ensFS cur (pyStrip r.team)) [pyStrip r.photo] =
          some Kind.file := by
        rw [kindOf, if_neg (by simp [h5]), heP, hsrc0]
      by_cases hdd : lookupFS fs₀ [pyStrip r.team, pyStrip r.photo] =
          some Kind.dir
      · -- destination is an existing directory: move into it
        have hisdir : isdir (ensFS cur (pyStrip r.team))
            [pyStrip r.team, pyStrip r.photo] = true := by
          rw [isdir, kindOf, if_neg (by simp), he2, hdd]
          simp
        have hD : rowDst fs₀ r =
            [pyStrip r.team, pyStrip r.photo, pyStrip r.photo] := by
          rw [rowDst, if_pos hdd]
        have hm2 : processRow cur r.team r.photo =
            (if pexists (ensFS cur (pyStrip r.team))
                [pyStrip r.team, pyStrip r.photo, pyStrip r.photo] = true
              then (ensFS cur (pyStrip r.team),
                some "shutil.Error: Destination path already exists")
              else rename (ensFS cur (pyStrip r.team)) [pyStrip r.photo]
                [pyStrip r.team, pyStrip r.photo, pyStrip r.photo]) := by
          rw [hmoveeq, shutilMove, if_pos hisdir,
            if_neg (show ([pyStrip r.photo] : Path) ≠
              [pyStrip r.team, pyStrip r.photo] by simp)]
          rw [show (([pyStrip r.team, pyStrip r.photo] : Path) ++
            [basename [pyStrip r.photo]]) =
            [pyStrip r.team, pyStrip r.photo, pyStrip r.photo] from by
            rw [basename_single]; rfl]
        cases hre0 : lookupFS fs₀
            [pyStrip r.team, pyStrip r.photo, pyStrip r.photo] with
        | some kr =>
          have herr : processRow cur r.team r.photo =
              (ensFS cur (pyStrip r.team),
                some "shutil.Error: Destination path already exists") := by
            rw [hm2, if_pos (by
              rw [pexists, kindOf, if_neg (by simp), he3, hre0]
              rfl)]
          refine ⟨?_, fun hok' => ?_⟩
          · rw [herr]
            simp [rowOkB, hT, hsrc0, hdd, hre0]
          · exfalso
            rw [rowOkB, if_pos hdd] at hok'
            simp [hT, hsrc0, hre0] at hok'
        | none =>
          have hokst : processRow cur r.team r.photo =
              (setEntry (eraseEntry (ensFS cur (pyStrip r.team))
                  [pyStrip r.photo])
                [pyStrip r.team, pyStrip r.photo, pyStrip r.photo]
                Kind.file, none) := by
            rw [hm2, if_neg (by
              rw [pexists, kindOf, if_neg (by simp), he3, hre0]
              simp)]
            rw [rename_file _ _ _ hkind,
              if_neg (show ([pyStrip r.photo] : Path) ≠
                [pyStrip r.team, pyStrip r.photo, pyStrip r.photo] by simp),
              if_neg (show ¬((!(isdir (ensFS cur (pyStrip r.team))
                  (([pyStrip r.team, pyStrip r.photo, pyStrip r.photo] :
                    Path).dropLast))) = true) from by
                rw [show (([pyStrip r.team, pyStrip r.photo,
                    pyStrip r.photo] : Path).dropLast) =
                  [pyStrip r.team, pyStrip r.photo] from rfl, hisdir]
                simp),
              if_neg (show ¬(isdir (ensFS cur (pyStrip r.team))
                  [pyStrip r.team, pyStrip r.photo, pyStrip r.photo] =
                    true) from by
                rw [isdir, kindOf, if_neg (by simp), he3, hre0]
                simp)]
          refine ⟨?_, fun _ q => ?_⟩
          · rw [hokst]
            simp [rowOkB, hdd, hre0]
          · rw [hokst]
            exact move_state_char fs₀ cur done r _ hinv h1 h3 h4 hT hMoved
              hD (Or.inr rfl) q
      · -- destination not an existing directory: plain rename
        have hnisdir : isdir (ensFS cur (pyStrip r.team))
            [pyStrip r.team, pyStrip r.photo] = false := by
          rw [isdir, kindOf, if_neg (by simp), he2]
          simpa using hdd
        have hD : rowDst fs₀ r = [pyStrip r.team, pyStrip r.photo] := by
          rw [rowDst, if_neg hdd]
        have hmv : processRow cur r.team r.photo =
            rename (ensFS cur (pyStrip r.team)) [pyStrip r.photo]
              [pyStrip r.team, pyStrip r.photo] := by
          rw [hmoveeq, shutilMove, if_neg (by rw [hnisdir]; simp)]
        by_cases hTfile : lookupFS fs₀ [pyStrip r.team] = some Kind.file
        · -- the team path is an existing file: the rename fails
          have hcurT := hinv [pyStrip r.team]
          rw [cLook_read_team fs₀ done r h3] at hcurT
          have hcurT' : lookupFS cur [pyStrip r.team] = some Kind.file := by
            rw [hcurT, if_neg (by rw [hTfile]; simp), hTfile]
          have hens : ensFS cur (pyStrip r.team) = cur := by
            rw [ensFS, if_pos (by
              rw [pexists, kindOf, if_neg (by simp [hT]), hcurT']
              rfl)]
          have herr : processRow cur r.team r.photo =
              (cur, some "NotADirectoryError") := by
            rw [hmv, hens, rename_file cur _ _ (by
                rw [kindOf, if_neg (by simp [h5])]
                rw [hens] at heP
                rw [heP, hsrc0]),
              if_neg (show ([pyStrip r.photo] : Path) ≠
                [pyStrip r.team, pyStrip r.photo] by simp),
              if_pos (show (!(isdir cur (([pyStrip r.team,
                  pyStrip r.photo] : Path).dropLast))) = true from by
                rw [show (([pyStrip r.team, pyStrip r.photo] :
                    Path).dropLast) = [pyStrip r.team] from rfl,
                  isdir, kindOf, if_neg (by simp [hT]), hcurT']
                simp)]
          refine ⟨?_, fun hok' => ?_⟩
          · rw [herr]
            simp [rowOkB, hT, hsrc0, hdd, hTfile]
          · exfalso
            rw [rowOkB, if_neg hdd] at hok'
            simp [hT, hsrc0, hTfile] at hok'
        · have hpardir := ens_team_isdir fs₀ cur done r hinv h3 hT hTfile
          have hokst : processRow cur r.team r.photo =
              (setEntry (eraseEntry (ensFS cur (pyStrip r.team))
                  [pyStrip r.photo])
                [pyStrip r.team, pyStrip r.photo] Kind.file, none) := by
            rw [hmv, rename_file _ _ _ hkind,
              if_neg (show ([pyStrip r.photo] : Path) ≠
                [pyStrip r.team, pyStrip r.photo] by simp),
              if_neg (show ¬((!(isdir (ensFS cur (pyStrip r.team))
                  (([pyStrip r.team, pyStrip r.photo] :
                    Path).dropLast))) = true) from by
                rw [show (([pyStrip r.team, pyStrip r.photo] :
                    Path).dropLast) = [pyStrip r.team] from rfl, hpardir]
                simp),
              if_neg (by rw [hnisdir]; simp)]
          refine ⟨?_, fun _ q => ?_⟩
          · rw [hokst]
            simp [rowOkB, hdd, hTfile]
          · rw [hokst]
            exact move_state_char fs₀ cur done r _ hinv h1 h3 h4 hT hMoved
              hD (Or.inl rfl) q

theorem run_inv (fs₀ : FS) (rows : List Row)
    (hnod : (rows.map fun r => pyStrip r.photo).Nodup)
    (hTP : ∀ r ∈ rows, ∀ s ∈ rows, pyStrip r.team ≠ pyStrip s.photo)
    (hP : ∀ r ∈ rows, pyStrip r.photo ≠ "")
    (hfile : ∀ r ∈ rows, lookupFS fs₀ [pyStrip r.photo] ≠ some Kind.dir) :
    ∀ todo done cur, rows = done ++ todo →
    (∀ q, lookupFS cur q = cLook fs₀ done q) →
    (((∀ r ∈ todo, rowOkB fs₀ r = true) →
      (runRows cur todo).2 = none ∧
      ∀ q, lookupFS (runRows cur todo).1 q = cLook fs₀ rows q) ∧
    ((runRows cur todo).2 = none → ∀ r ∈ todo, rowOkB fs₀ r = true)) := by
  intro todo
  induction todo with
  | nil =>
    intro done cur hsplit hinv
    rw [List.append_nil] at hsplit
    refine ⟨fun _ => ⟨rfl, fun q => ?_⟩,
      fun _ r hr => absurd hr (List.not_mem_nil r)⟩
    show lookupFS cur q = cLook fs₀ rows q
    rw [hinv q, hsplit]
  | cons r rest ih =>
    intro done cur hsplit hinv
    have hr_mem : r ∈ rows := by
      rw [hsplit]
      exact List.mem_append_right _ (List.mem_cons_self r rest)
    have hsub_done : ∀ s ∈ done, s ∈ rows := fun s hs => by
      rw [hsplit]
      exact List.mem_append_left _ hs
    have hnod' := hnod
    rw [hsplit, List.map_append] at hnod'
    obtain ⟨-, -, hdisj⟩ := List.nodup_append.mp hnod'
    have h1 : ∀ s ∈ done, pyStrip s.photo ≠ pyStrip r.photo := by
      intro s hs heq
      exact hdisj (List.mem_map_of_mem _ hs) (by rw [heq]; simp)
    have h2 : ∀ s ∈ done, pyStrip s.team ≠ pyStrip r.photo :=
      fun s hs => hTP s (hsub_done s hs) r hr_mem
    have h3 : ∀ s ∈ done, pyStrip s.photo ≠ pyStrip r.team :=
      fun s hs => Ne.symm (hTP r hr_mem s (hsub_done s hs))
    have h4 : pyStrip r.team ≠ pyStrip r.photo := hTP r hr_mem r hr_mem
    have h5 : pyStrip r.photo ≠ "" := hP r hr_mem
    have h6 : lookupFS fs₀ [pyStrip r.photo] ≠ some Kind.dir :=
      hfile r hr_mem
    have hstep := step_char fs₀ cur done r hinv h1 h2 h3 h4 h5 h6
    cases hpr : processRow cur r.team r.photo with
    | mk fs' err =>
      cases err with
      | none =>
        have hok : rowOkB fs₀ r = true := hstep.1.mp (by rw [hpr])
        have hinv' : ∀ q, lookupFS fs' q = cLook fs₀ (done ++ [r]) q := by
          intro q
          have hh := hstep.2 hok q
          rw [hpr] at hh
          exact hh
        have hrun : runRows cur (r :: rest) = runRows fs' rest := by
          rw [runRows, hpr]
        have hih := ih (done ++ [r]) fs' (by rw [hsplit]; simp) hinv'
        refine ⟨fun hall => ?_, fun hok2 s hs => ?_⟩
        · rw [hrun]
          exact hih.1 (fun s hs => hall s (List.mem_cons_of_mem r hs))
        · rw [hrun] at hok2
          rcases List.mem_cons.mp hs with hs | hs
          · rw [hs]
            exact hok
          · exact hih.2 hok2 s hs
      | some e =>
        have hbad : rowOkB fs₀ r = false := by
          cases hv : rowOkB fs₀ r with
          | false => rfl
          | true =>
            have := hstep.1.mpr hv
            rw [hpr] at this
            exact absurd this (by simp)
        have hrun : runRows cur (r :: rest) = (fs', some e) := by
          rw [runRows, hpr]
        refine ⟨fun hall => ?_, fun hok2 => ?_⟩
        · rw [hall r (List.mem_cons_self r rest)] at hbad
          exact absurd hbad (by simp)
        · rw [hrun] at hok2
          exact absurd hok2 (by simp)

/-- C8 counterexample: row order can affect the final filesystem state
even when every row addresses a distinct photo filename. Over an empty
image directory, the rows `(Red, X)` and `(T, Red)` have distinct photo
values `X` and `Red`; in the order `(Red, X), (T, Red)` the first row
creates directory `Red`, which the second row then finds at its source
path and moves to `T/Red`; in the reversed order nothing exists at `Red`
when `(T, Red)` runs, so nothing is moved. Both orders finish without
error, yet the final states differ at `T/Red`. -/
theorem run_order_independent_cex :
    ((([⟨"Red", "X"⟩, ⟨"T", "Red"⟩] : List Row).map
        fun r => pyStrip r.photo).Nodup) ∧
    (([⟨"Red", "X"⟩, ⟨"T", "Red"⟩] : List Row).Perm
      [⟨"T", "Red"⟩, ⟨"Red", "X"⟩]) ∧
    (runRows [] [⟨"Red", "X"⟩, ⟨"T", "Red"⟩]).2 = none ∧
    (runRows [] [⟨"T", "Red"⟩, ⟨"Red", "X"⟩]).2 = none ∧
    lookupFS (runRows [] [⟨"Red", "X"⟩, ⟨"T", "Red"⟩]).1 ["T", "Red"] =
      some Kind.dir ∧
    lookupFS (runRows [] [⟨"T", "Red"⟩, ⟨"Red", "X"⟩]).1 ["T", "Red"] =
      none := by
  decide

/-- C8 (amended): row order does not affect the final filesystem state,
provided the rows' trimmed photo values are pairwise distinct and
nonempty, no row's trimmed team value equals any row's trimmed photo
value, no trimmed photo value names a directory in the initial state,
and the run in the original order completes without error: then the run
on any permutation of the rows also completes without error and yields
a final state with identical lookups at every path. -/
theorem run_order_independent (fs₀ : FS) (rows rows' : List Row)
    (hperm : rows.Perm rows')
    (hnod : (rows.map fun r => pyStrip r.photo).Nodup)
    (hTP : ∀ r ∈ rows, ∀ s ∈ rows, pyStrip r.team ≠ pyStrip s.photo)
    (hP : ∀ r ∈ rows, pyStrip r.photo ≠ "")
    (hfile : ∀ r ∈ rows, lookupFS fs₀ [pyStrip r.photo] ≠ some Kind.dir)
    (hok : (runRows fs₀ rows).2 = none) :
    (runRows fs₀ rows').2 = none ∧
    ∀ q, lookupFS (runRows fs₀ rows').1 q =
      lookupFS (runRows fs₀ rows).1 q := by
  have hrun := run_inv fs₀ rows hnod hTP hP hfile rows [] fs₀ (by simp)
    (fun q => (cLook_nil fs₀ q).symm)
  have hall : ∀ r ∈ rows, rowOkB fs₀ r = true := hrun.2 hok
  have hchar : ∀ q, lookupFS (runRows fs₀ rows).1 q = cLook fs₀ rows q :=
    (hrun.1 hall).2
  have hnod' : (rows'.map fun r => pyStrip r.photo).Nodup :=
    ((hperm.map _).nodup_iff).mp hnod
  have hTP' : ∀ r ∈ rows', ∀ s ∈ rows',
      pyStrip r.team ≠ pyStrip s.photo := fun r hr s hs =>
    hTP r (hperm.mem_iff.mpr hr) s (hperm.mem_iff.mpr hs)
  have hP' : ∀ r ∈ rows', pyStrip r.photo ≠ "" := fun r hr =>
    hP r (hperm.mem_iff.mpr hr)
  have hfile' : ∀ r ∈ rows',
      lookupFS fs₀ [pyStrip r.photo] ≠ some Kind.dir := fun r hr =>
    hfile r (hperm.mem_iff.mpr hr)
  have hrun' := run_inv fs₀ rows' hnod' hTP' hP' hfile' rows' [] fs₀
    (by simp) (fun q => (cLook_nil fs₀ q).symm)
  have hall' : ∀ r ∈ rows', rowOkB fs₀ r = true := fun r hr =>
    hall r (hperm.mem_iff.mpr hr)
  refine ⟨(hrun'.1 hall').1, fun q => ?_⟩
  rw [(hrun'.1 hall').2 q, hchar q, cLook_perm fs₀ hperm q]

theorem run_order_independent_witness :
    (runRows [(["a.jpg"], Kind.file), (["b.jpg"], Kind.file)]
      [⟨"Blue", "b.jpg"⟩, ⟨"Red", "a.jpg"⟩]).2 = none ∧
    lookupFS (runRows [(["a.jpg"], Kind.file), (["b.jpg"], Kind.file)]
      [⟨"Blue", "b.jpg"⟩, ⟨"Red", "a.jpg"⟩]).1 ["Red", "a.jpg"] =
    lookupFS (runRows [(["a.jpg"], Kind.file), (["b.jpg"], Kind.file)]
      [⟨"Red", "a.jpg"⟩, ⟨"Blue", "b.jpg"⟩]).1 ["Red", "a.jpg"] := by
  have h := run_order_independent
    [(["a.jpg"], Kind.file), (["b.jpg"], Kind.file)]
    [⟨"Red", "a.jpg"⟩, ⟨"Blue", "b.jpg"⟩]
    [⟨"Blue", "b.jpg"⟩, ⟨"Red", "a.jpg"⟩]
    (by decide) (by decide) (by decide) (by decide) (by decide) (by decide)
  exact ⟨h.1, h.2 ["Red", "a.jpg"]⟩

/-! ### Claim C5: values are stripped before use -/

/-- C5: the team and photo values enter the row step only through
`str(...).strip()`: any two raw values with equal stripped forms yield
identical behaviour, and a team value `" Red "` produces a directory
named `Red` (the unstripped name is not created). -/
theorem values_stripped_before_use :
    (∀ (fs : FS) (t t' p p' : String), pyStrip t = pyStrip t' →
      pyStrip p = pyStrip p' → processRow fs t p = processRow fs t' p') ∧
    pyStrip " Red " = "Red" ∧
    lookupFS (processRow [(["a.jpg"], Kind.file)] " Red " "a.jpg").1 ["Red"] =
      some Kind.dir ∧
    lookupFS (processRow [(["a.jpg"], Kind.file)] " Red " "a.jpg").1 [" Red "] =
      none := by
  refine ⟨fun fs t t' p p' h1 h2 => ?_, by decide, by decide, by decide⟩
  simp only [processRow, ensureTeamDir, h1, h2]

/-- Witness for C5: two raw team values stripping to `Red` (and two raw
photo values stripping to `a.jpg`) behave identically. -/
theorem values_stripped_before_use_witness :
    processRow [] " Red " " a.jpg " = processRow [] "Red " "a.jpg" :=
  values_stripped_before_use.1 [] " Red " "Red " " a.jpg " "a.jpg"
    (by decide) (by decide)

/-! ### Claim C9: the two front ends wrap the same routine -/

theorem processRow_eq_mac (fs : FS) (t p : String) :
    processRow fs t p = macProcessRow fs t p := rfl

theorem organizeLoop_eq_macLoop (header : List String) (tc pc : String) :
    ∀ (rows : List (List String)) (fs : FS),
      organizeLoop header tc pc fs rows = macLoop header tc pc fs rows := by
  intro rows
  induction rows with
  | nil => intro fs; rfl
  | cons cells rest ih =>
    intro fs
    simp only [organizeLoop, macLoop, ← processRow_eq_mac]
    cases getCell header cells tc with
    | none => rfl
    | some tv =>
      cases getCell header cells pc with
      | none => rfl
      | some pv =>
        cases h : processRow fs tv pv with
        | mk f e => cases e <;> simp [ih]

/-- C9: the per-row loop of `organize.py` and the inline loop of
`organize-mac.py` compute exactly the same result — identical filesystem
effects and identical error behaviour on every table, column choice and
initial state. -/
theorem front_ends_equivalent (tbl : Table) (teamCol photoCol : String) (fs : FS) :
    organize_photos_by_team tbl teamCol photoCol fs =
      run_organizer tbl teamCol photoCol fs :=
  organizeLoop_eq_macLoop tbl.header teamCol photoCol tbl.rows fs

end OrgByTeam
